import Mathlib

/-!
Verification development for the company-mapper graph engine
(`src/components/GraphCanvas.tsx` and helpers in `src/lib`).

The TypeScript source is shallowly embedded as executable Lean functions:
* assembly of the seed graph (`fetchData`),
* the connectivity highlighter (`styledNodes`/`styledEdges` memo),
* the expansion engine (`expandSingleNode`, `handleExpandNetwork`).

Network fetches are modelled as explicit oracles (`FetchEnv`); a rejected
promise is `Except.error`, a response whose JSON lacks the expected key
(`items` / `officers` / `company`) is `Except.ok none`.  React state updates
(`setNodes`, `setEdges`, `setError`) are modelled as fields of `CanvasState`.
Layout (positions) and purely visual constants that no claim touches
(`type: 'smoothstep'`, `animated`, label background styles, CSS transitions)
are not modelled; edge `style.stroke` / `strokeDasharray` and the
opacity written by the highlighter are modelled (opacity in tenths:
`1` ↦ `10`, `0.2` ↦ `2`, `0.1` ↦ `1`).
-/

namespace CompanyMapper

/-! ### Decimal rendering of JS numbers

Array indices interpolated into template strings (`` `officer-${index}` ``)
print in decimal.  `decStr` is the decimal printer, written with structural
fuel so that it reduces in the kernel. -/

def decListF : Nat → Nat → List Char
  | 0, _ => []
  | fuel + 1, n =>
    if n < 10 then [Nat.digitChar n]
    else decListF fuel (n / 10) ++ [Nat.digitChar (n % 10)]

def decList (n : Nat) : List Char := decListF (n + 1) n

def decStr (n : Nat) : String := ⟨decList n⟩

/-- Predicate: the string contains no dash (true of registry company numbers
as modelled; all synthetic node identities contain a dash). -/
def noDash (s : String) : Prop := '-' ∉ s.data

instance (s : String) : Decidable (noDash s) := by
  unfold noDash
  infer_instance

/-! ### JS truthiness on optional strings

`x || y` and `x ? a : b` in the source operate on strings that may be
`undefined`; both `undefined` and `""` are falsy. -/

def truthyS : Option String → Bool
  | none => false
  | some s => !(s == "")

def jsOrS (a : Option String) (b : String) : String :=
  match a with
  | none => b
  | some s => if s = "" then b else s

def jsSelect (a b : Option String) : Option String :=
  match a with
  | none => b
  | some s => if s = "" then b else a

/-! ### Address records and the two projections -/

structure Address where
  address_line_1 : Option String := none
  address_line_2 : Option String := none
  locality : Option String := none
  region : Option String := none
  postal_code : Option String := none
  country : Option String := none
deriving DecidableEq, Repr

/-- Model of `[...].filter(Boolean).join(', ')`: drop absent and empty components,
join the rest with `", "`. -/
def joinParts (parts : List (Option String)) : String :=
  String.intercalate ", " ((parts.filterMap id).filter (fun s => !(s == "")))

/-- Model of `formatAddress` (GraphCanvas.tsx lines 77–87): the six-component
projection, the dedup key for correspondence-address nodes. -/
def formatAddress (addr : Address) : String :=
  joinParts [addr.address_line_1, addr.address_line_2, addr.locality,
             addr.region, addr.postal_code, addr.country]

/-- The two-component projection `[address_line_1, locality].filter(Boolean).join(', ')`
used inline at lines 269 (company registered-address node label) and 561
(officer-expansion address matching). -/
def shortAddress (addr : Address) : String :=
  joinParts [addr.address_line_1, addr.locality]

/-! ### Raw registry records (shapes read by GraphCanvas.tsx) -/

structure Officer where
  name : String := ""
  officer_role : String := ""
  officer_id : Option String := none
  nationality : Option String := none
  appointed_on : Option String := none
  occupation : Option String := none
  country_of_residence : Option String := none
  address : Option Address := none
deriving DecidableEq, Repr

structure CompanyRec where
  company_number : String
  company_name : String := ""
  company_status : Option String := none
  company_type : Option String := none
  date_of_creation : Option String := none
  registered_office_address : Address := {}
deriving DecidableEq, Repr

structure Psc where
  name : String := ""
  natures_of_control : List String := []
  nationality : Option String := none
deriving DecidableEq, Repr

/-- One item of `/api/officer/<id>/appointments` (`data.items`). -/
structure Appt where
  company_number : String
  company_name : String := ""
  officer_role : String := ""
  appointed_on : Option String := none
  company_status : Option String := none
  address : Option Address := none
deriving DecidableEq, Repr

/-- Model of `formatDate` (src/lib/utils.ts): `'N/A'` for a falsy input; the locale
rendering of a present date is not relevant to any claim and is modelled
as the raw string. -/
def formatDate (d : Option String) : String :=
  match d with
  | none => "N/A"
  | some s => if s = "" then "N/A" else s

/-- Model of `psc.natures_of_control?.[0]?.split('-').join(' ') || 'Significant Control'`. -/
def dashToSpace (s : String) : String := ⟨s.data.map (fun c => if c = '-' then ' ' else c)⟩

def pscRole (p : Psc) : String :=
  match p.natures_of_control.head? with
  | none => "Significant Control"
  | some s => let r := dashToSpace s
              if r = "" then "Significant Control" else r

/-! ### Graph data model (React Flow nodes/edges as used by the engine) -/

/-- A graph node.  `type` is the node kind string (`'company'`, `'officer'`,
`'psc'`, `'address'`), `opacity` the highlight styling in tenths. -/
structure GNode where
  id : String
  type : String
  label : String
  role : String := ""
  subtext : Option String := none
  status : Option String := none
  officer_id : Option String := none
  address : Option String := none
  opacity : Option Nat := none
deriving DecidableEq, Repr

/-- A graph edge.  `dashed` models `strokeDasharray: '5,5'` (set exactly on
correspondence-address edges); `opacity` the highlight styling in tenths. -/
structure GEdge where
  id : String
  source : String
  target : String
  label : String := ""
  stroke : String := "#94a3b8"
  dashed : Bool := false
  opacity : Option Nat := none
deriving DecidableEq, Repr

def edgeId (src tgt : String) : String := "e-" ++ src ++ "-" ++ tgt

/-- Officer-role edge (solid, slate stroke). -/
def officerEdge (src tgt label : String) : GEdge :=
  { id := edgeId src tgt, source := src, target := tgt, label := label }

/-- PSC edge (solid, amber stroke). -/
def pscEdge (src tgt : String) : GEdge :=
  { id := edgeId src tgt, source := src, target := tgt, label := "PSC", stroke := "#f59e0b" }

/-- Registered-office edge (solid). -/
def regOfficeEdge (src tgt : String) : GEdge :=
  { id := edgeId src tgt, source := src, target := tgt, label := "Registered Office" }

/-- Correspondence-address edge (dashed). -/
def corrEdge (src tgt : String) : GEdge :=
  { id := edgeId src tgt, source := src, target := tgt, label := "Correspondence",
    dashed := true }

/-- Registered-at edge (address expansion). -/
def regAtEdge (src tgt : String) : GEdge :=
  { id := edgeId src tgt, source := src, target := tgt, label := "Registered At" }

/-! ### Assembly (`fetchData`, GraphCanvas.tsx lines 120–334)

The seed fetch's post-processing: build the company node, deduplicated
officer nodes, officer correspondence-address nodes and edges, PSC nodes,
the registered-address node `address-1`, then collapse duplicate edge ids. -/

/-- Officer node identity at assembly: `` `officer-${officer.officer_id || index}` ``. -/
def officerNodeIdA (o : Officer) (i : Nat) : String :=
  "officer-" ++ jsOrS o.officer_id (decStr i)

def mkOfficerNode (id : String) (o : Officer) : GNode :=
  { id := id, type := "officer", label := o.name, role := o.officer_role,
    subtext := o.nationality, officer_id := o.officer_id,
    address := (o.address.map formatAddress) }

/-- Lines 138–165: push each officer node unless its computed identity was
already produced in this batch (the `uniqueOfficerIds` set holds exactly the
ids of the nodes pushed so far). -/
def buildOfficerNodes : Nat → List Officer → List GNode → List GNode
  | _, [], acc => acc
  | i, o :: os, acc =>
    let oid := officerNodeIdA o i
    if acc.any (fun n => n.id == oid) then buildOfficerNodes (i + 1) os acc
    else buildOfficerNodes (i + 1) os (acc ++ [mkOfficerNode oid o])

def mkAddrNode (id label : String) : GNode :=
  { id := id, type := "address", label := label, role := "Correspondence Address" }

/-- Lines 167–239: for each officer with a non-empty formatted address,
reuse an already-created address node with the same label, or the company's
`address-1` node when the label equals the company's formatted
registered-office address, or create a fresh node
`` `address-${index}-${officer.officer_id || index}` ``; then emit the
correspondence edge.  (The earlier slug-based id at line 192 is dead:
every branch overwrites it.) -/
def buildOfficerAddr (companyAddrLabel : String) :
    Nat → List Officer → List GNode → List GEdge → List GNode × List GEdge
  | _, [], ns, es => (ns, es)
  | i, o :: os, ns, es =>
    match o.address with
    | none => buildOfficerAddr companyAddrLabel (i + 1) os ns es
    | some addr =>
      let addressLabel := formatAddress addr
      if addressLabel = "" then buildOfficerAddr companyAddrLabel (i + 1) os ns es
      else
        let officerId := officerNodeIdA o i
        match ns.find? (fun n => n.label == addressLabel) with
        | some found =>
          buildOfficerAddr companyAddrLabel (i + 1) os ns (es ++ [corrEdge officerId found.id])
        | none =>
          if addressLabel = companyAddrLabel then
            buildOfficerAddr companyAddrLabel (i + 1) os ns
              (es ++ [corrEdge officerId "address-1"])
          else
            let addressNodeId := "address-" ++ decStr i ++ "-" ++ jsOrS o.officer_id (decStr i)
            buildOfficerAddr companyAddrLabel (i + 1) os
              (ns ++ [mkAddrNode addressNodeId addressLabel])
              (es ++ [corrEdge officerId addressNodeId])

/-- Lines 241–262: PSC nodes `` `psc-${index}` `` with the same seen-set
dedup pattern as officers. -/
def buildPscNodes : Nat → List Psc → List GNode → List GNode
  | _, [], acc => acc
  | i, p :: ps, acc =>
    let id := "psc-" ++ decStr i
    if acc.any (fun n => n.id == id) then buildPscNodes (i + 1) ps acc
    else
      buildPscNodes (i + 1) ps
        (acc ++ [{ id := id, type := "psc", label := p.name, role := pscRole p,
                   subtext := p.nationality }])

/-- The root company node (lines 123–136). -/
def mkCompanyNode (company : CompanyRec) : GNode :=
  { id := company.company_number, type := "company", label := company.company_name,
    role := "Target Company",
    subtext := some ("Inc: " ++ formatDate company.date_of_creation),
    status := company.company_status,
    address := some (formatAddress company.registered_office_address) }

/-- The registered-address node `address-1` (lines 264–275); note its label
is the two-component projection. -/
def mkAddress1Node (company : CompanyRec) : GNode :=
  { id := "address-1", type := "address",
    label := shortAddress company.registered_office_address,
    role := "Registered Address" }

/-- First-occurrence-wins edge dedup.  This is both the `deduplicateEdges`
helper (lines 66–74) and, observably, the insertion-ordered `uniqueEdges`
map of lines 317–324. -/
def deduplicateEdges (es : List GEdge) : List GEdge :=
  go [] es
where
  go (seen : List String) : List GEdge → List GEdge
    | [] => []
    | e :: rest =>
      if seen.contains e.id then go seen rest
      else e :: go (seen ++ [e.id]) rest

/-- The assembly step: nodes and edges produced from one seed fetch
(positions, assigned later by the layout engine, are not modelled). -/
def assembleGraph (company : CompanyRec) (officers : List Officer) (pscs : List Psc) :
    List GNode × List GEdge :=
  let companyNode := mkCompanyNode company
  let officerNodes := buildOfficerNodes 0 officers []
  let (officerAddressNodes, officerAddressEdges) :=
    buildOfficerAddr (formatAddress company.registered_office_address) 0 officers [] []
  let pscNodes := buildPscNodes 0 pscs []
  let addressNode := mkAddress1Node company
  let newNodes := companyNode :: officerNodes ++ pscNodes ++ addressNode :: officerAddressNodes
  let rawEdges :=
    officerNodes.map (fun n => officerEdge companyNode.id n.id n.role) ++
    pscNodes.map (fun n => pscEdge companyNode.id n.id) ++
    [regOfficeEdge companyNode.id addressNode.id] ++
    officerAddressEdges
  (newNodes, deduplicateEdges rawEdges)

/-- The component's state relevant to the claims: the graph plus the `error`
React state (set by the seed fetch on failure, displayed as the error screen). -/
structure CanvasState where
  nodes : List GNode
  edges : List GEdge
  errorMsg : Option String := none
deriving DecidableEq, Repr

instance {ε α : Type} [DecidableEq ε] [DecidableEq α] : DecidableEq (Except ε α)
  | .ok a, .ok b =>
    if h : a = b then .isTrue (by rw [h]) else .isFalse (fun c => h (by cases c; rfl))
  | .ok _, .error _ => .isFalse (fun c => by cases c)
  | .error _, .ok _ => .isFalse (fun c => by cases c)
  | .error a, .error b =>
    if h : a = b then .isTrue (by rw [h]) else .isFalse (fun c => h (by cases c; rfl))

/-- Model of `fetchData` (lines 92–341): a failed seed fetch surfaces as the `error`
state and leaves no graph; a successful one replaces the graph with the
assembled one. -/
def fetchData (seed : Except String (CompanyRec × List Officer × List Psc))
    (st : CanvasState) : CanvasState :=
  match seed with
  | .error e => { st with errorMsg := some e }
  | .ok (company, officers, pscs) =>
    let (ns, es) := assembleGraph company officers pscs
    { nodes := ns, edges := es, errorMsg := none }

/-! ### Connectivity highlighter (`styledNodes`/`styledEdges` memo, lines 377–465)

BFS over the undirected adjacency view with the company-stopping rule, then a
final pass emphasizing every edge whose two endpoints are both emphasized. -/

/-- The adjacency entries for one node id, in the order the `adjacency` map
accumulates them (each edge contributes target to its source's list and
source to its target's list, in edge order). -/
def adjacencyOf (edges : List GEdge) (id : String) : List (String × String) :=
  edges.foldl (fun acc e =>
    acc ++ (if e.source == id then [(e.target, e.id)] else [])
        ++ (if e.target == id then [(e.source, e.id)] else [])) []

/-- JS `Set.add`: insert if absent. -/
def addId (s : List String) (x : String) : List String :=
  if s.contains x then s else s ++ [x]

def nodeTypeOf (nodes : List GNode) (id : String) : Option String :=
  (nodes.find? (fun n => n.id == id)).map (·.type)

/-- One visit of the popped node's neighbor list: emphasize each connecting
edge; enqueue-and-emphasize each unvisited neighbor.  Returns the updated
(edge set, visited set, ids appended to the queue). -/
def visitNeighbors (nbrs : List (String × String)) (eids vis : List String) :
    List String × List String × List String :=
  nbrs.foldl (fun st nb =>
    let eids' := addId st.1 nb.2
    if st.2.1.contains nb.1 then (eids', st.2.1, st.2.2)
    else (eids', st.2.1 ++ [nb.1], st.2.2 ++ [nb.1])) (eids, vis, [])

/-- The `while (queue.length > 0)` loop, with structural fuel.  Each enqueue
is guarded by inserting a fresh id (an edge endpoint) into the visited set,
so there are at most `2 * edges.length` enqueues and `2 * edges.length + 1`
pops: fuel `2 * edges.length + 2` never runs out before the queue empties. -/
def bfsLoop (nodes : List GNode) (edges : List GEdge) (active : String) :
    Nat → List String → List String → List String → List String × List String
  | 0, _, vis, eids => (vis, eids)
  | _ + 1, [], vis, eids => (vis, eids)
  | fuel + 1, currId :: qs, vis, eids =>
    if nodeTypeOf nodes currId == some "company" && !(currId == active) then
      bfsLoop nodes edges active fuel qs vis eids
    else
      let r := visitNeighbors (adjacencyOf edges currId) eids vis
      bfsLoop nodes edges active fuel (qs ++ r.2.2) r.2.1 r.1

/-- Lines 433–437: one additional pass over all edges. -/
def recoveryPass (edges : List GEdge) (vis eids : List String) : List String :=
  edges.foldl (fun acc e =>
    if vis.contains e.source && vis.contains e.target then addId acc e.id else acc) eids

/-- The derived highlight styling.  With no (truthy) active node the inputs
are returned unchanged; otherwise every node/edge gets its opacity (in
tenths) and edge stroke set from membership in the emphasized sets. -/
def styledGraph (nodes : List GNode) (edges : List GEdge)
    (hoveredNodeId : Option String) (selectedNode : Option GNode) :
    List GNode × List GEdge :=
  let activeNodeId := if truthyS hoveredNodeId then hoveredNodeId
                      else selectedNode.map (·.id)
  match activeNodeId with
  | none => (nodes, edges)
  | some a =>
    if a = "" then (nodes, edges)
    else
      let r := bfsLoop nodes edges a (2 * edges.length + 2) [a] [a] []
      let vis := r.1
      let eids := recoveryPass edges vis r.2
      (nodes.map (fun n =>
        { n with opacity := some (if vis.contains n.id then 10 else 2) }),
       edges.map (fun e =>
        { e with opacity := some (if eids.contains e.id then 10 else 1),
                 stroke := if eids.contains e.id then "#94a3b8" else "#cbd5e1" }))

/-! ### Expansion engine (`expandSingleNode`, lines 486–777)

Network oracles: `Except.error` models a rejected fetch promise;
`Except.ok none` models a response whose JSON lacks the expected key
(which is what the repo's own API routes return on registry failure:
they catch and answer `{error: ...}`, so `data.items` / `data.officers`
is `undefined`). -/

structure FetchEnv where
  appointments : String → Except Unit (Option (List Appt))
  companyDetails : String → Except Unit (Option CompanyRec)
  companyOfficers : String → Except Unit (Option (List Officer))
  addressSearch : String → Except Unit (Option (List CompanyRec))

structure ExpandResult where
  newNodes : List GNode := []
  newEdges : List GEdge := []
  allNeighbors : List GNode := []
deriving DecidableEq, Repr

/-- The parallel prefetch of lines 497–526: an existing node is reused (its
`data.source` is not consulted afterwards in the existing-node branch); the
per-company details fetch is wrapped in try/catch, so its failure — or a
response without `company` — yields `company: null`. -/
def apptPrefetch (env : FetchEnv) (currentNodes : List GNode) (item : Appt) :
    Appt × Option CompanyRec × Option GNode :=
  let nodeId := item.company_number
  match currentNodes.find? (fun n => n.id == nodeId) with
  | some existingNode => (item, none, some existingNode)
  | none =>
    match env.companyDetails nodeId with
    | .error _ => (item, none, none)
    | .ok copt => (item, copt, none)

/-- The `results.forEach` body of lines 528–609. -/
def apptStep (nodeToExpand : GNode) (currentNodes : List GNode) (currentEdges : List GEdge)
    (st : ExpandResult) (r : Appt × Option CompanyRec × Option GNode) : ExpandResult :=
  let item := r.1
  let company := r.2.1
  let nodeId := item.company_number
  match r.2.2 with
  | some existingNode =>
    let eid := edgeId nodeToExpand.id nodeId
    let newEdges :=
      if !(currentEdges.any (fun e => e.id == eid)) && !(st.newEdges.any (fun e => e.id == eid))
      then st.newEdges ++ [officerEdge nodeToExpand.id nodeId item.officer_role]
      else st.newEdges
    { st with allNeighbors := st.allNeighbors ++ [existingNode], newEdges := newEdges }
  | none =>
    if st.newNodes.any (fun n => n.id == nodeId) then st
    else
      let addressEdge : Option GEdge :=
        match item.address with
        | none => none
        | some itemAddress =>
          let addressLabel := shortAddress itemAddress
          match currentNodes.find? (fun n => n.type == "address" && n.label == addressLabel) with
          | some existingAddressNode => some (regOfficeEdge nodeId existingAddressNode.id)
          | none => none
      let newNode : GNode :=
        { id := nodeId, type := "company", label := item.company_name,
          role := jsOrS (company.bind (·.company_type)) "Limited Company",
          subtext := some (match company with
            | some c => "Inc: " ++ formatDate c.date_of_creation
            | none => "Appointed: " ++ formatDate item.appointed_on),
          status := jsSelect (company.bind (·.company_status)) item.company_status,
          address := match company with
            | some c => some (formatAddress c.registered_office_address)
            | none => item.address.map shortAddress }
      { newNodes := st.newNodes ++ [newNode],
        allNeighbors := st.allNeighbors ++ [newNode],
        newEdges := st.newEdges ++ [officerEdge nodeToExpand.id nodeId item.officer_role] ++
          (match addressEdge with | some e => [e] | none => []) }

/-- Model of `label.replace(/\s+/g, '-').toLowerCase().slice(0, 20)` (line 683). -/
def squashWsF : Nat → List Char → List Char
  | 0, _ => []
  | _ + 1, [] => []
  | fuel + 1, c :: cs =>
    if c.isWhitespace then '-' :: squashWsF fuel (cs.dropWhile Char.isWhitespace)
    else c :: squashWsF fuel cs

def slug (s : String) : String :=
  ⟨((squashWsF (s.data.length + 1) s.data).map Char.toLower).take 20⟩

/-- Officer node identity at company expansion (line 617):
`` officer.officer_id ? `officer-${officer.officer_id}` : `officer-${nodeToExpand.id}-${index}` ``. -/
def officerNodeIdE (parentId : String) (officer : Officer) (i : Nat) : String :=
  match officer.officer_id with
  | some oid => if oid = "" then "officer-" ++ parentId ++ "-" ++ decStr i
                else "officer-" ++ oid
  | none => "officer-" ++ parentId ++ "-" ++ decStr i

/-- The `data.officers.forEach` body of lines 616–725 (company expansion). -/
def companyOfficerStep (nodeToExpand : GNode) (currentNodes : List GNode)
    (currentEdges : List GEdge) (st : ExpandResult) (i : Nat) (officer : Officer) :
    ExpandResult :=
  let officerId := officerNodeIdE nodeToExpand.id officer i
  match currentNodes.find? (fun n => n.id == officerId) with
  | some existingNode =>
    -- address handling is skipped for an already-existing officer (lines 636–639)
    let eid := edgeId nodeToExpand.id officerId
    let newEdges :=
      if !(currentEdges.any (fun e => e.id == eid)) && !(st.newEdges.any (fun e => e.id == eid))
      then st.newEdges ++ [officerEdge nodeToExpand.id officerId officer.officer_role]
      else st.newEdges
    { st with allNeighbors := st.allNeighbors ++ [existingNode], newEdges := newEdges }
  | none =>
    if st.newNodes.any (fun n => n.id == officerId) then st
    else
      let newNode := mkOfficerNode officerId officer
      let st1 : ExpandResult :=
        { newNodes := st.newNodes ++ [newNode],
          allNeighbors := st.allNeighbors ++ [newNode],
          newEdges := st.newEdges ++ [officerEdge nodeToExpand.id officerId officer.officer_role] }
      match officer.address with
      | none => st1
      | some addr =>
        let addressLabel := formatAddress addr
        if addressLabel = "" then st1
        else
          let freshId := "address-" ++ slug addressLabel ++ "-" ++ decStr i
          match currentNodes.find? (fun n => n.type == "address" && n.label == addressLabel) with
          | some existingAddress =>
            { st1 with newEdges := st1.newEdges ++ [corrEdge officerId existingAddress.id] }
          | none =>
            match st1.newNodes.find? (fun n => n.type == "address" && n.label == addressLabel) with
            | some newAddress =>
              { st1 with newEdges := st1.newEdges ++ [corrEdge officerId newAddress.id] }
            | none =>
              let newAddressNode := mkAddrNode freshId addressLabel
              { st1 with newNodes := st1.newNodes ++ [newAddressNode],
                         allNeighbors := st1.allNeighbors ++ [newAddressNode],
                         newEdges := st1.newEdges ++ [corrEdge officerId freshId] }

def companyOfficersLoop (nodeToExpand : GNode) (currentNodes : List GNode)
    (currentEdges : List GEdge) : Nat → List Officer → ExpandResult → ExpandResult
  | _, [], st => st
  | i, o :: os, st =>
    companyOfficersLoop nodeToExpand currentNodes currentEdges (i + 1) os
      (companyOfficerStep nodeToExpand currentNodes currentEdges st i o)

/-- The `data.items.forEach` body of lines 731–772 (address expansion): a company
already present by identity only joins the neighbor list — no node and no
edge is added for it. -/
def addressHitStep (nodeToExpand : GNode) (currentNodes : List GNode)
    (st : ExpandResult) (company : CompanyRec) : ExpandResult :=
  let nodeId := company.company_number
  match currentNodes.find? (fun n => n.id == nodeId) with
  | some existingNode => { st with allNeighbors := st.allNeighbors ++ [existingNode] }
  | none =>
    if st.newNodes.any (fun n => n.id == nodeId) then st
    else
      let newNode : GNode :=
        { id := nodeId, type := "company", label := company.company_name,
          role := jsOrS company.company_status "Company",
          subtext := some ("Inc: " ++ formatDate company.date_of_creation),
          status := company.company_status,
          address := some nodeToExpand.label }
      { newNodes := st.newNodes ++ [newNode],
        allNeighbors := st.allNeighbors ++ [newNode],
        newEdges := st.newEdges ++ [regAtEdge nodeToExpand.id nodeId] }

/-- Model of `expandSingleNode` (lines 486–777).  A rejected branch fetch propagates
(`Except.error`); a response without the expected key contributes nothing. -/
def expandSingleNode (env : FetchEnv) (nodeToExpand : GNode)
    (currentNodes : List GNode) (currentEdges : List GEdge) : Except Unit ExpandResult :=
  if nodeToExpand.type == "officer" && truthyS nodeToExpand.officer_id then
    match env.appointments (jsOrS nodeToExpand.officer_id "") with
    | .error e => .error e
    | .ok none => .ok {}
    | .ok (some items) =>
      let results := items.map (apptPrefetch env currentNodes)
      .ok (results.foldl (apptStep nodeToExpand currentNodes currentEdges) {})
  else if nodeToExpand.type == "company" then
    match env.companyOfficers nodeToExpand.id with
    | .error e => .error e
    | .ok none => .ok {}
    | .ok (some officers) =>
      .ok (companyOfficersLoop nodeToExpand currentNodes currentEdges 0 officers {})
  else if nodeToExpand.type == "address" then
    match env.addressSearch nodeToExpand.label with
    | .error e => .error e
    | .ok none => .ok {}
    | .ok (some items) =>
      .ok (items.foldl (addressHitStep nodeToExpand currentNodes) {})
  else .ok {}

/-! ### `handleExpandNetwork` (lines 779–851) -/

/-- Lines 796–803: collect each result's `newNodes`, skipping ids already in
the graph or already collected this level. -/
def mergeNewNodes (currentNodes : List GNode) (results : List ExpandResult) : List GNode :=
  results.foldl (fun acc r =>
    r.newNodes.foldl (fun acc2 node =>
      if currentNodes.any (fun n => n.id == node.id) || acc2.any (fun n => n.id == node.id)
      then acc2 else acc2 ++ [node]) acc) []

/-- Lines 811–819: first-occurrence-by-id filter over the collected neighbors. -/
def dedupNodesById (ns : List GNode) : List GNode :=
  go [] ns
where
  go (seen : List String) : List GNode → List GNode
    | [] => []
    | n :: rest =>
      if seen.contains n.id then go seen rest else n :: go (seen ++ [n.id]) rest

/-- Model of `Promise.all` over the frontier: all fetches of a level settle against
the level-start snapshot; any single rejection rejects the whole batch. -/
def promiseAll (g : GNode → Except Unit ExpandResult) :
    List GNode → Except Unit (List ExpandResult)
  | [] => .ok []
  | n :: ns =>
    match g n with
    | .error e => .error e
    | .ok r =>
      match promiseAll g ns with
      | .error e => .error e
      | .ok rs => .ok (r :: rs)

/-- The per-level loop of lines 789–834.  The merge happens only after the
whole batch settles. -/
def levelLoop (env : FetchEnv) : Nat → List GNode → List GNode → List GEdge →
    Except Unit (List GNode × List GEdge)
  | 0, _, currentNodes, currentEdges => .ok (currentNodes, currentEdges)
  | k + 1, nodesToExpand, currentNodes, currentEdges =>
    match promiseAll (fun n => expandSingleNode env n currentNodes currentEdges) nodesToExpand with
    | .error e => .error e
    | .ok results =>
      let nextLevelNodes := mergeNewNodes currentNodes results
      let currentEdges' := currentEdges ++ results.foldl (fun a r => a ++ r.newEdges) []
      let potentialNextNodes := results.foldl (fun a r => a ++ r.allNeighbors) []
      let uniqueNextNodes := dedupNodesById potentialNextNodes
      let currentNodes' := currentNodes ++ nextLevelNodes
      if uniqueNextNodes.isEmpty then .ok (currentNodes', currentEdges')
      else levelLoop env k uniqueNextNodes currentNodes' currentEdges'

/-- Model of `handleExpandNetwork`: on success the grown graph (with edge ids
deduplicated) replaces the state; on a thrown expansion the catch block only
logs — `setNodes`/`setEdges`/`setError` are never called, so the state is
returned untouched. -/
def handleExpandNetwork (env : FetchEnv) (selectedNode : Option GNode)
    (st : CanvasState) (expansionLevel : Nat) : CanvasState :=
  match selectedNode with
  | none => st
  | some sel =>
    match levelLoop env expansionLevel [sel] st.nodes st.edges with
    | .ok (cn, ce) => { st with nodes := cn, edges := deduplicateEdges ce }
    | .error _ => st

/-! ## Theorems about the claims -/

/-- A bare node of a given kind, as the highlighter sees it (only `id` and
`type` influence traversal; `label` is carried for completeness). -/
def plainNode (id ty lbl : String) : GNode := { id := id, type := ty, label := lbl }

/-- A bare edge with an explicit identity. -/
def plainEdge (eid src tgt : String) : GEdge := { id := eid, source := src, target := tgt }

/-- Concrete environment whose every fetch rejects (a rejected promise, not
an error-shaped JSON body). -/
def env8 : FetchEnv :=
  ⟨fun _ => .error (), fun _ => .error (), fun _ => .error (), fun _ => .error ()⟩

def off8 : GNode :=
  { id := "officer-x", type := "officer", label := "X", officer_id := some "x" }

/-- An address record carrying only line 1 and locality. -/
def rShort : Address := { address_line_1 := some "1 Main St", locality := some "Leeds" }

/-- An address record with the same line 1 and locality but additionally a
country, so its six-component formatted string differs from `rShort`'s. -/
def rFull : Address :=
  { address_line_1 := some "1 Main St", locality := some "Leeds", country := some "UK" }

def officerZ : GNode :=
  { id := "officer-z", type := "officer", label := "Z", officer_id := some "z" }

/-- An address node created from `rShort` (its label is `formatAddress rShort`). -/
def addrNodeC2 : GNode := mkAddrNode "addrN" "1 Main St, Leeds"

def envC2 : FetchEnv :=
  ⟨fun _ => .ok (some [{ company_number := "C9", company_name := "NewCo",
                          officer_role := "director", address := some rFull }]),
   fun _ => .ok none, fun _ => .error (), fun _ => .error ()⟩

def c2res : ExpandResult :=
  match expandSingleNode envC2 officerZ [officerZ, addrNodeC2] [] with
  | .ok r => r
  | .error _ => {}

def co5 : CompanyRec := { company_number := "12345678" }

def off5 : Officer := { name := "Y" }

/-! ### Per-call address dedup in company expansion (claim C6) -/

/-- The per-call address-dedup invariant: no two of the call's new address
nodes share a label, no new address node duplicates a label already present
as an address node of the current graph, and every correspondence (dashed)
edge targets an address node of the current graph or of the call. -/
def addrInv (cn : List GNode) (st : ExpandResult) : Prop :=
  ((st.newNodes.filter (fun n => n.type == "address")).map (·.label)).Nodup ∧
  (∀ n ∈ st.newNodes.filter (fun n => n.type == "address"),
    ∀ m ∈ cn, m.type = "address" → m.label ≠ n.label) ∧
  (∀ e ∈ st.newEdges, e.dashed = true →
    ∃ n, (n ∈ cn ∨ n ∈ st.newNodes) ∧ n.type = "address" ∧ n.id = e.target)

def addrL6 : Address := { address_line_1 := some "9 High St", locality := some "Leeds" }

def offP6 : Officer := { name := "P", officer_id := some "p", address := some addrL6 }

def offQ6 : Officer := { name := "Q", officer_id := some "q" }

def offR6 : Officer := { name := "R", officer_id := some "r", address := some addrL6 }

def offExpC6 : GNode :=
  { id := "officer-x", type := "officer", label := "X", officer_id := some "x" }

/-- Two sibling companies in the level-2 frontier, each fetching one officer
at a different positional index with the same formatted address. -/
def envC6 : FetchEnv :=
  ⟨fun _ => .ok (some [{ company_number := "A1", company_name := "Aco" },
                       { company_number := "B1", company_name := "Bco" }]),
   fun _ => .ok none,
   fun cid => if cid = "A1" then .ok (some [offP6])
              else if cid = "B1" then .ok (some [offQ6, offR6]) else .error (),
   fun _ => .error ()⟩

/-! ## Theorems -/

theorem decListF_congr : ∀ n f g, n < f → n < g → decListF f n = decListF g n := by
  intro n
  induction n using Nat.strong_induction_on with
  | _ n ih =>
    intro f g hf hg
    match f, g with
    | f' + 1, g' + 1 =>
      by_cases h10 : n < 10
      · simp [decListF, h10]
      · have hn : 0 < n := by omega
        have hdivn : n / 10 < n := Nat.div_lt_self hn (by decide)
        have hf' : n / 10 < f' := by omega
        have hg' : n / 10 < g' := by omega
        simp only [decListF, if_neg h10]
        rw [ih (n / 10) hdivn f' g' hf' hg']

theorem decList_eq (n : Nat) :
    decList n = if n < 10 then [Nat.digitChar n]
                else decList (n / 10) ++ [Nat.digitChar (n % 10)] := by
  have h1 : decListF (n + 1) n =
      if n < 10 then [Nat.digitChar n]
      else decListF n (n / 10) ++ [Nat.digitChar (n % 10)] := rfl
  by_cases h10 : n < 10
  · simp [decList, decListF, h10]
  · have hn : 0 < n := by omega
    have hdivn : n / 10 < n := Nat.div_lt_self hn (by decide)
    show decListF (n + 1) n = _
    rw [h1, if_neg h10, if_neg h10,
      decListF_congr (n / 10) n (n / 10 + 1) (by omega) (by omega)]
    rfl

theorem digitChar_ne_dash : ∀ d : Nat, d < 10 → Nat.digitChar d ≠ '-' := by
  have h : ∀ d : Fin 10, Nat.digitChar d.val ≠ '-' := by decide
  intro d hd
  exact h ⟨d, hd⟩

theorem digitChar_inj : ∀ a b : Nat, a < 10 → b < 10 →
    Nat.digitChar a = Nat.digitChar b → a = b := by
  have h : ∀ a b : Fin 10, Nat.digitChar a.val = Nat.digitChar b.val → a = b := by decide
  intro a b ha hb hab
  have := h ⟨a, ha⟩ ⟨b, hb⟩ hab
  exact congrArg Fin.val this

theorem decList_no_dash : ∀ n, '-' ∉ decList n := by
  intro n
  induction n using Nat.strong_induction_on with
  | _ n ih =>
    rw [decList_eq n]
    by_cases h10 : n < 10
    · simp only [if_pos h10, List.mem_singleton]
      exact fun h => digitChar_ne_dash n h10 h.symm
    · have hn : 0 < n := by omega
      have hdivn : n / 10 < n := Nat.div_lt_self hn (by decide)
      simp only [if_neg h10, List.mem_append, List.mem_singleton]
      intro h
      rcases h with h | h
      · exact ih (n / 10) hdivn h
      · exact digitChar_ne_dash (n % 10) (Nat.mod_lt n (by decide)) h.symm

theorem decList_ne_nil (n : Nat) : decList n ≠ [] := by
  rw [decList_eq n]
  by_cases h10 : n < 10 <;> simp [h10]

theorem decList_inj : ∀ m n, decList m = decList n → m = n := by
  intro m
  induction m using Nat.strong_induction_on with
  | _ m ih =>
    intro n h
    rw [decList_eq m, decList_eq n] at h
    by_cases hm : m < 10 <;> by_cases hn : n < 10
    · simp only [if_pos hm, if_pos hn, List.cons.injEq, and_true] at h
      exact digitChar_inj m n hm hn h
    · exfalso
      simp only [if_pos hm, if_neg hn] at h
      have : ([Nat.digitChar m]).length = (decList (n / 10) ++ [Nat.digitChar (n % 10)]).length :=
        congrArg List.length h
      simp only [List.length_singleton, List.length_append] at this
      have := decList_ne_nil (n / 10)
      have hpos : 0 < (decList (n / 10)).length := List.length_pos.mpr this
      omega
    · exfalso
      simp only [if_neg hm, if_pos hn] at h
      have : (decList (m / 10) ++ [Nat.digitChar (m % 10)]).length = ([Nat.digitChar n]).length :=
        congrArg List.length h
      simp only [List.length_singleton, List.length_append] at this
      have := decList_ne_nil (m / 10)
      have hpos : 0 < (decList (m / 10)).length := List.length_pos.mpr this
      omega
    · simp only [if_neg hm, if_neg hn] at h
      obtain ⟨h1, h2⟩ := List.append_inj' h rfl
      have hmn10 : m / 10 = n / 10 := by
        have hmpos : 0 < m := by omega
        exact ih (m / 10) (Nat.div_lt_self hmpos (by decide)) (n / 10) h1
      have hmod : m % 10 = n % 10 := by
        simp only [List.cons.injEq, and_true] at h2
        exact digitChar_inj (m % 10) (n % 10) (Nat.mod_lt m (by decide))
          (Nat.mod_lt n (by decide)) h2
      omega

/-! ### String-level helpers -/

theorem string_data_append (s t : String) : (s ++ t).data = s.data ++ t.data := by
  cases s; cases t; rfl

theorem string_ext {s t : String} (h : s.data = t.data) : s = t := by
  cases s; cases t; exact congrArg String.mk h

theorem string_ne_of_data_ne {s t : String} (h : s.data ≠ t.data) : s ≠ t :=
  fun he => h (congrArg String.data he)

/-- Splitting at a separator character that occurs in neither left part:
the decomposition `l ++ '-' :: r` is unique. -/
theorem dash_split : ∀ (l₁ l₂ r₁ r₂ : List Char), '-' ∉ l₁ → '-' ∉ l₂ →
    l₁ ++ '-' :: r₁ = l₂ ++ '-' :: r₂ → l₁ = l₂ ∧ r₁ = r₂ := by
  intro l₁
  induction l₁ with
  | nil =>
    intro l₂ r₁ r₂ _ h₂ h
    match l₂ with
    | [] => simp_all
    | c :: t₂ =>
      exfalso
      simp only [List.nil_append, List.cons_append, List.cons.injEq] at h
      exact h₂ (h.1 ▸ List.mem_cons_self c t₂)
  | cons a t₁ ih =>
    intro l₂ r₁ r₂ h₁ h₂ h
    match l₂ with
    | [] =>
      exfalso
      simp only [List.cons_append, List.nil_append, List.cons.injEq] at h
      exact h₁ (h.1 ▸ List.mem_cons_self a t₁)
    | c :: t₂ =>
      simp only [List.cons_append, List.cons.injEq] at h
      obtain ⟨hac, hrest⟩ := h
      have h₁' : '-' ∉ t₁ := fun hm => h₁ (List.mem_cons_of_mem a hm)
      have h₂' : '-' ∉ t₂ := fun hm => h₂ (List.mem_cons_of_mem c hm)
      obtain ⟨he, hr⟩ := ih t₂ r₁ r₂ h₁' h₂' hrest
      exact ⟨by rw [hac, he], hr⟩

/-- C9: when neither a hovered node nor a selected node is set, the highlight
computation returns the node list and edge list unchanged — no opacity
reduction or emphasis styling is applied. -/
theorem claim9_no_active_node_identity (nodes : List GNode) (edges : List GEdge) :
    styledGraph nodes edges none none = (nodes, edges) := rfl

/-- C3: in a graph where company `C`'s only edges link it to officers `O1`
and `O2` (no shared address), highlighting with active node `O1` emphasizes
`C` (opacity 1) but leaves `O2` de-emphasized (opacity 0.2) and the `C`–`O2`
edge de-emphasized (opacity 0.1). -/
theorem claim3_highlighter_blocking (c o1 o2 lc l1 l2 eid1 eid2 : String)
    (hco1 : c ≠ o1) (hco2 : c ≠ o2) (ho12 : o1 ≠ o2) (ho1ne : o1 ≠ "")
    (heid : eid1 ≠ eid2) :
    (((styledGraph
        [plainNode c "company" lc, plainNode o1 "officer" l1, plainNode o2 "officer" l2]
        [plainEdge eid1 c o1, plainEdge eid2 c o2] (some o1) none).1.find?
        (fun n => n.id == c)).map (·.opacity) = some (some 10)) ∧
    (((styledGraph
        [plainNode c "company" lc, plainNode o1 "officer" l1, plainNode o2 "officer" l2]
        [plainEdge eid1 c o1, plainEdge eid2 c o2] (some o1) none).1.find?
        (fun n => n.id == o2)).map (·.opacity) = some (some 2)) ∧
    (((styledGraph
        [plainNode c "company" lc, plainNode o1 "officer" l1, plainNode o2 "officer" l2]
        [plainEdge eid1 c o1, plainEdge eid2 c o2] (some o1) none).2.find?
        (fun e => e.id == eid2)).map (·.opacity) = some (some 1)) := by
  have b1 : (o1 == "") = false := beq_eq_false_iff_ne.mpr ho1ne
  have b2 : (c == o1) = false := beq_eq_false_iff_ne.mpr hco1
  have b3 : (o1 == c) = false := beq_eq_false_iff_ne.mpr (Ne.symm hco1)
  have b4 : (c == o2) = false := beq_eq_false_iff_ne.mpr hco2
  have b5 : (o2 == c) = false := beq_eq_false_iff_ne.mpr (Ne.symm hco2)
  have b6 : (o1 == o2) = false := beq_eq_false_iff_ne.mpr ho12
  have b7 : (o2 == o1) = false := beq_eq_false_iff_ne.mpr (Ne.symm ho12)
  have b8 : (eid1 == eid2) = false := beq_eq_false_iff_ne.mpr heid
  have b9 : (eid2 == eid1) = false := beq_eq_false_iff_ne.mpr (Ne.symm heid)
  simp [styledGraph, plainNode, plainEdge, truthyS, b1, Bool.not_false, if_neg ho1ne,
    bfsLoop, nodeTypeOf, List.find?, b3, b2, beq_self_eq_true, adjacencyOf,
    visitNeighbors, recoveryPass, addId, List.foldl, List.contains, List.elem, b4, b5,
    b6, b7, b8, b9, hco1, hco2, ho12, Ne.symm hco1, Ne.symm hco2, Ne.symm ho12,
    Ne.symm heid, heid, ho1ne]

/-- Witness for C3 at concrete identities. -/
theorem claim3_highlighter_blocking_witness :
    (("c" : String) ≠ "o1") ∧
    ((((styledGraph
        [plainNode "c" "company" "", plainNode "o1" "officer" "", plainNode "o2" "officer" ""]
        [plainEdge "E1" "c" "o1", plainEdge "E2" "c" "o2"] (some "o1") none).1.find?
        (fun n => n.id == "c")).map (·.opacity) = some (some 10)) ∧
    ((((styledGraph
        [plainNode "c" "company" "", plainNode "o1" "officer" "", plainNode "o2" "officer" ""]
        [plainEdge "E1" "c" "o1", plainEdge "E2" "c" "o2"] (some "o1") none).1.find?
        (fun n => n.id == "o2")).map (·.opacity) = some (some 2)) ∧
    (((styledGraph
        [plainNode "c" "company" "", plainNode "o1" "officer" "", plainNode "o2" "officer" ""]
        [plainEdge "E1" "c" "o1", plainEdge "E2" "c" "o2"] (some "o1") none).2.find?
        (fun e => e.id == "E2")).map (·.opacity) = some (some 1)))) :=
  ⟨by decide,
   claim3_highlighter_blocking "c" "o1" "o2" "" "" "" "E1" "E2"
     (by decide) (by decide) (by decide) (by decide) (by decide)⟩

/-- C4: with edges `O1–C`, `O2–C`, `O1–Addr`, `O2–Addr` (shared address),
highlighting with active node `O1` emphasizes `O2`, `Addr`, `C` and all four
edges, including the `C`–`O2` edge. -/
theorem claim4_highlighter_address_bridge (o1 o2 c a l1 l2 lc la f1 f2 f3 f4 : String)
    (hco1 : c ≠ o1) (hco2 : c ≠ o2) (ho12 : o1 ≠ o2) (hao1 : a ≠ o1) (hao2 : a ≠ o2)
    (hac : a ≠ c) (ho1ne : o1 ≠ "")
    (h12 : f1 ≠ f2) (h13 : f1 ≠ f3) (h14 : f1 ≠ f4) (h23 : f2 ≠ f3) (h24 : f2 ≠ f4)
    (h34 : f3 ≠ f4) :
    (((styledGraph
        [plainNode o1 "officer" l1, plainNode o2 "officer" l2,
         plainNode c "company" lc, plainNode a "address" la]
        [plainEdge f1 o1 c, plainEdge f2 o2 c, plainEdge f3 o1 a, plainEdge f4 o2 a]
        (some o1) none).1.map (·.opacity)) = [some 10, some 10, some 10, some 10]) ∧
    (((styledGraph
        [plainNode o1 "officer" l1, plainNode o2 "officer" l2,
         plainNode c "company" lc, plainNode a "address" la]
        [plainEdge f1 o1 c, plainEdge f2 o2 c, plainEdge f3 o1 a, plainEdge f4 o2 a]
        (some o1) none).2.map (·.opacity)) = [some 10, some 10, some 10, some 10]) := by
  have b1 : (o1 == "") = false := beq_eq_false_iff_ne.mpr ho1ne
  have b2 : (c == o1) = false := beq_eq_false_iff_ne.mpr hco1
  have b3 : (o1 == c) = false := beq_eq_false_iff_ne.mpr (Ne.symm hco1)
  have b4 : (c == o2) = false := beq_eq_false_iff_ne.mpr hco2
  have b5 : (o2 == c) = false := beq_eq_false_iff_ne.mpr (Ne.symm hco2)
  have b6 : (o1 == o2) = false := beq_eq_false_iff_ne.mpr ho12
  have b7 : (o2 == o1) = false := beq_eq_false_iff_ne.mpr (Ne.symm ho12)
  have b8 : (a == o1) = false := beq_eq_false_iff_ne.mpr hao1
  have b9 : (o1 == a) = false := beq_eq_false_iff_ne.mpr (Ne.symm hao1)
  have b10 : (a == o2) = false := beq_eq_false_iff_ne.mpr hao2
  have b11 : (o2 == a) = false := beq_eq_false_iff_ne.mpr (Ne.symm hao2)
  have b12 : (a == c) = false := beq_eq_false_iff_ne.mpr hac
  have b13 : (c == a) = false := beq_eq_false_iff_ne.mpr (Ne.symm hac)
  have c12 : (f1 == f2) = false := beq_eq_false_iff_ne.mpr h12
  have c21 : (f2 == f1) = false := beq_eq_false_iff_ne.mpr (Ne.symm h12)
  have c13 : (f1 == f3) = false := beq_eq_false_iff_ne.mpr h13
  have c31 : (f3 == f1) = false := beq_eq_false_iff_ne.mpr (Ne.symm h13)
  have c14 : (f1 == f4) = false := beq_eq_false_iff_ne.mpr h14
  have c41 : (f4 == f1) = false := beq_eq_false_iff_ne.mpr (Ne.symm h14)
  have c23 : (f2 == f3) = false := beq_eq_false_iff_ne.mpr h23
  have c32 : (f3 == f2) = false := beq_eq_false_iff_ne.mpr (Ne.symm h23)
  have c24 : (f2 == f4) = false := beq_eq_false_iff_ne.mpr h24
  have c42 : (f4 == f2) = false := beq_eq_false_iff_ne.mpr (Ne.symm h24)
  have c34 : (f3 == f4) = false := beq_eq_false_iff_ne.mpr h34
  have c43 : (f4 == f3) = false := beq_eq_false_iff_ne.mpr (Ne.symm h34)
  simp [styledGraph, plainNode, plainEdge, truthyS, b1, Bool.not_false, if_neg ho1ne,
    bfsLoop, nodeTypeOf, List.find?, adjacencyOf, visitNeighbors, recoveryPass, addId,
    List.foldl, List.contains, List.elem, beq_self_eq_true,
    b2, b3, b4, b5, b6, b7, b8, b9, b10, b11, b12, b13,
    c12, c21, c13, c31, c14, c41, c23, c32, c24, c42, c34, c43,
    hco1, hco2, ho12, hao1, hao2, hac, h12, h13, h14, h23, h24, h34,
    Ne.symm hco1, Ne.symm hco2, Ne.symm ho12, Ne.symm hao1, Ne.symm hao2, Ne.symm hac,
    Ne.symm h12, Ne.symm h13, Ne.symm h14, Ne.symm h23, Ne.symm h24, Ne.symm h34]

/-- Witness for C4 at concrete identities. -/
theorem claim4_highlighter_address_bridge_witness :
    (("c" : String) ≠ "o1") ∧
    ((((styledGraph
        [plainNode "o1" "officer" "", plainNode "o2" "officer" "",
         plainNode "c" "company" "", plainNode "a" "address" ""]
        [plainEdge "F1" "o1" "c", plainEdge "F2" "o2" "c",
         plainEdge "F3" "o1" "a", plainEdge "F4" "o2" "a"]
        (some "o1") none).1.map (·.opacity)) = [some 10, some 10, some 10, some 10]) ∧
    (((styledGraph
        [plainNode "o1" "officer" "", plainNode "o2" "officer" "",
         plainNode "c" "company" "", plainNode "a" "address" ""]
        [plainEdge "F1" "o1" "c", plainEdge "F2" "o2" "c",
         plainEdge "F3" "o1" "a", plainEdge "F4" "o2" "a"]
        (some "o1") none).2.map (·.opacity)) = [some 10, some 10, some 10, some 10])) :=
  ⟨by decide,
   claim4_highlighter_address_bridge "o1" "o2" "c" "a" "" "" "" "" "F1" "F2" "F3" "F4"
     (by decide) (by decide) (by decide) (by decide) (by decide) (by decide) (by decide)
     (by decide) (by decide) (by decide) (by decide) (by decide) (by decide)⟩

/-- In the address branch, every created node's id and every created edge's
target is the company number of a location hit that was absent from the
current graph. -/
theorem addressHitStep_foldl_inv (node : GNode) (cn : List GNode) :
    ∀ (hits : List CompanyRec) (st : ExpandResult),
    (∀ n ∈ st.newNodes, ¬ ∃ m ∈ cn, m.id = n.id) →
    (∀ e ∈ st.newEdges, ¬ ∃ m ∈ cn, m.id = e.target) →
    (∀ n ∈ (hits.foldl (addressHitStep node cn) st).newNodes, ¬ ∃ m ∈ cn, m.id = n.id) ∧
    (∀ e ∈ (hits.foldl (addressHitStep node cn) st).newEdges, ¬ ∃ m ∈ cn, m.id = e.target) := by
  intro hits
  induction hits with
  | nil => intro st h1 h2; exact ⟨h1, h2⟩
  | cons c rest ih =>
    intro st h1 h2
    simp only [List.foldl_cons]
    apply ih
    · intro n hn
      rcases hfind : cn.find? (fun n => n.id == c.company_number) with _ | m
      · simp only [addressHitStep, hfind] at hn
        by_cases hdup : st.newNodes.any (fun n => n.id == c.company_number)
        · rw [if_pos hdup] at hn; exact h1 n hn
        · rw [if_neg hdup] at hn
          simp only [List.mem_append, List.mem_singleton] at hn
          rcases hn with hn | hn
          · exact h1 n hn
          · subst hn
            simp only
            rintro ⟨m, hm, hmid⟩
            have := List.find?_eq_none.mp hfind m hm
            simp only [beq_iff_eq] at this
            exact this hmid
      · simp only [addressHitStep, hfind] at hn
        exact h1 n hn
    · intro e he
      rcases hfind : cn.find? (fun n => n.id == c.company_number) with _ | m
      · simp only [addressHitStep, hfind] at he
        by_cases hdup : st.newNodes.any (fun n => n.id == c.company_number)
        · rw [if_pos hdup] at he; exact h2 e he
        · rw [if_neg hdup] at he
          simp only [List.mem_append, List.mem_singleton] at he
          rcases he with he | he
          · exact h2 e he
          · subst he
            show ¬ ∃ m ∈ cn, m.id = c.company_number
            rintro ⟨m, hm, hmid⟩
            have := List.find?_eq_none.mp hfind m hm
            simp only [beq_iff_eq] at this
            exact this hmid
      · simp only [addressHitStep, hfind] at he
        exact h2 e he

/-- C10: expanding an address node is idempotent with respect to
already-known companies: a location hit already present in the graph by
company-number identity contributes no new node and no new edge — not even
a registered-at edge toward it. -/
theorem claim10_address_expand_idempotent (env : FetchEnv) (node : GNode)
    (cn : List GNode) (ce : List GEdge) (hits : List CompanyRec) (c : CompanyRec)
    (r : ExpandResult)
    (hty : node.type = "address")
    (hfetch : env.addressSearch node.label = .ok (some hits))
    (hc : c ∈ hits)
    (hpresent : ∃ m ∈ cn, m.id = c.company_number)
    (hr : expandSingleNode env node cn ce = .ok r) :
    (∀ n ∈ r.newNodes, n.id ≠ c.company_number) ∧
    (∀ e ∈ r.newEdges, e.target ≠ c.company_number) := by
  have hrval : r = hits.foldl (addressHitStep node cn) {} := by
    unfold expandSingleNode at hr
    rw [hty] at hr
    simp only [show (("address" == "officer") : Bool) = false from rfl,
      show (("address" == "company") : Bool) = false from rfl,
      show (("address" == "address") : Bool) = true from rfl,
      Bool.false_and, Bool.if_false_left] at hr
    rw [hfetch] at hr
    simp only at hr
    cases hr
    rfl
  subst hrval
  obtain ⟨hn, he⟩ := addressHitStep_foldl_inv node cn hits {} (by simp) (by simp)
  constructor
  · intro n hmem heq
    exact hn n hmem (heq ▸ hpresent)
  · intro e hmem heq
    exact he e hmem (heq ▸ hpresent)

/-- Witness for C10: a concrete address expansion where the single hit is
already in the graph. -/
theorem claim10_address_expand_idempotent_witness :
    (expandSingleNode
      ⟨fun _ => .error (), fun _ => .error (), fun _ => .error (),
       fun _ => .ok (some [{ company_number := "11111111" }])⟩
      (plainNode "addr1" "address" "L")
      [plainNode "11111111" "company" "K"] [] =
      .ok { allNeighbors := [plainNode "11111111" "company" "K"] }) ∧
    (∀ n ∈ (ExpandResult.newNodes
        { allNeighbors := [plainNode "11111111" "company" "K"] }), n.id ≠ "11111111") ∧
    (∀ e ∈ (ExpandResult.newEdges
        { allNeighbors := [plainNode "11111111" "company" "K"] }), e.target ≠ "11111111") := by
  refine ⟨by decide, ?_⟩
  exact claim10_address_expand_idempotent
    ⟨fun _ => .error (), fun _ => .error (), fun _ => .error (),
     fun _ => .ok (some [{ company_number := "11111111" }])⟩
    (plainNode "addr1" "address" "L")
    [plainNode "11111111" "company" "K"] []
    [{ company_number := "11111111" }] { company_number := "11111111" }
    { allNeighbors := [plainNode "11111111" "company" "K"] }
    (by decide) rfl (by decide) ⟨plainNode "11111111" "company" "K", by decide, by decide⟩
    (by decide)

/-- The `Promise.all` batch distributes over frontier concatenation. -/
theorem promiseAll_split (g : GNode → Except Unit ExpandResult) :
    ∀ f₁ f₂, promiseAll g (f₁ ++ f₂) =
      match promiseAll g f₁ with
      | .error e => .error e
      | .ok r₁ =>
        match promiseAll g f₂ with
        | .error e => .error e
        | .ok r₂ => .ok (r₁ ++ r₂) := by
  intro f₁
  induction f₁ with
  | nil =>
    intro f₂
    simp only [List.nil_append, promiseAll]
    cases promiseAll g f₂ <;> rfl
  | cons x rest ih =>
    intro f₂
    simp only [List.cons_append, promiseAll]
    cases g x with
    | error e => rfl
    | ok r =>
      simp only [List.append_eq]
      rw [ih f₂]
      cases promiseAll g rest <;> cases promiseAll g f₂ <;> rfl

/-- An empty expansion result anywhere in a level's result list contributes
nothing to the level merge. -/
theorem merge_mid_empty (cn : List GNode) :
    ∀ (r₁ r₂ : List ExpandResult),
      mergeNewNodes cn (r₁ ++ ({} : ExpandResult) :: r₂) = mergeNewNodes cn (r₁ ++ r₂) ∧
      (∀ a : List GEdge, (r₁ ++ ({} : ExpandResult) :: r₂).foldl (fun a r => a ++ r.newEdges) a =
        (r₁ ++ r₂).foldl (fun a r => a ++ r.newEdges) a) ∧
      (∀ a : List GNode, (r₁ ++ ({} : ExpandResult) :: r₂).foldl (fun a r => a ++ r.allNeighbors) a =
        (r₁ ++ r₂).foldl (fun a r => a ++ r.allNeighbors) a) := by
  have key : ∀ (r₁ r₂ : List ExpandResult) (acc : List GNode),
      (r₁ ++ ({} : ExpandResult) :: r₂).foldl
        (fun acc r => r.newNodes.foldl (fun acc2 node =>
          if cn.any (fun n => n.id == node.id) || acc2.any (fun n => n.id == node.id)
          then acc2 else acc2 ++ [node]) acc) acc =
      (r₁ ++ r₂).foldl
        (fun acc r => r.newNodes.foldl (fun acc2 node =>
          if cn.any (fun n => n.id == node.id) || acc2.any (fun n => n.id == node.id)
          then acc2 else acc2 ++ [node]) acc) acc := by
    intro r₁
    induction r₁ with
    | nil => intro r₂ acc; simp [List.foldl_cons]
    | cons x rest ih => intro r₂ acc; simp only [List.cons_append, List.foldl_cons]; exact ih r₂ _
  intro r₁ r₂
  refine ⟨key r₁ r₂ [], ?_, ?_⟩
  · intro a
    induction r₁ generalizing a with
    | nil => simp [List.foldl_cons]
    | cons x rest ih => simp only [List.cons_append, List.foldl_cons]; exact ih _
  · intro a
    induction r₁ generalizing a with
    | nil => simp [List.foldl_cons]
    | cons x rest ih => simp only [List.cons_append, List.foldl_cons]; exact ih _

/-- A frontier node whose expansion yields the empty result can be dropped
from the frontier without changing the expansion's outcome. -/
theorem levelLoop_absorb_empty (env : FetchEnv) (nf : GNode)
    (cne : List GNode) (cee : List GEdge)
    (h : expandSingleNode env nf cne cee = .ok {}) :
    ∀ (k : Nat) (f₁ f₂ : List GNode),
      levelLoop env k (f₁ ++ nf :: f₂) cne cee = levelLoop env k (f₁ ++ f₂) cne cee := by
  intro k f₁ f₂
  cases k with
  | zero => rfl
  | succ k' =>
    simp only [levelLoop]
    rw [promiseAll_split _ f₁ (nf :: f₂), promiseAll_split _ f₁ f₂]
    cases hpa1 : promiseAll (fun n => expandSingleNode env n cne cee) f₁ with
    | error e => rfl
    | ok r₁ =>
      simp only [promiseAll, h]
      cases hpa2 : promiseAll (fun n => expandSingleNode env n cne cee) f₂ with
      | error e => rfl
      | ok r₂ =>
        simp only
        obtain ⟨hm, he, hn⟩ := merge_mid_empty cne r₁ r₂
        rw [hm, he, hn]

/-- C7: a frontier node whose neighbor fetch fails (the API answers without
the expected payload key, which is how the repo's routes report registry
failures) contributes no new nodes, edges or neighbors for that level, and
the level merge proceeds exactly as if that node were absent from the
frontier — the other frontier nodes' results are still merged. -/
theorem claim7_failed_fetch_absorbed :
    (∀ (env : FetchEnv) (n : GNode) (cn : List GNode) (ce : List GEdge) (v : String),
      n.type = "officer" → n.officer_id = some v → v ≠ "" →
      env.appointments v = .ok none → expandSingleNode env n cn ce = .ok {}) ∧
    (∀ (env : FetchEnv) (n : GNode) (cn : List GNode) (ce : List GEdge),
      n.type = "company" → env.companyOfficers n.id = .ok none →
      expandSingleNode env n cn ce = .ok {}) ∧
    (∀ (env : FetchEnv) (n : GNode) (cn : List GNode) (ce : List GEdge),
      n.type = "address" → env.addressSearch n.label = .ok none →
      expandSingleNode env n cn ce = .ok {}) ∧
    (∀ (env : FetchEnv) (nf : GNode) (cn : List GNode) (ce : List GEdge),
      expandSingleNode env nf cn ce = .ok {} →
      ∀ (k : Nat) (f₁ f₂ : List GNode),
        levelLoop env k (f₁ ++ nf :: f₂) cn ce = levelLoop env k (f₁ ++ f₂) cn ce) := by
  refine ⟨?_, ?_, ?_, fun env nf cn ce h => levelLoop_absorb_empty env nf cn ce h⟩
  · intro env n cn ce v hty hoid hv hfetch
    have hb : (!(v == "")) = true := by
      simp [beq_eq_false_iff_ne.mpr hv]
    unfold expandSingleNode
    rw [hty, hoid]
    simp only [truthyS, hb, show (("officer" == "officer") : Bool) = true from rfl,
      Bool.and_true, Bool.true_and, if_true]
    have : jsOrS (some v) "" = v := by simp [jsOrS, hv]
    rw [this, hfetch]
  · intro env n cn ce hty hfetch
    unfold expandSingleNode
    rw [hty, hfetch]
    simp
  · intro env n cn ce hty hfetch
    unfold expandSingleNode
    rw [hty, hfetch]
    simp

/-- Witness for C7: a two-node frontier where one node's fetch reports
failure; the expansion completes with exactly the other node's merge. -/
theorem claim7_failed_fetch_absorbed_witness :
    (expandSingleNode
      ⟨fun _ => .ok none, fun _ => .error (), fun _ => .error (), fun _ => .error ()⟩
      { id := "officer-x", type := "officer", label := "X", officer_id := some "x" } [] [] =
      .ok {}) ∧
    (levelLoop
      ⟨fun _ => .ok none, fun _ => .error (), fun _ => .error (), fun _ => .error ()⟩
      1 [{ id := "officer-x", type := "officer", label := "X", officer_id := some "x" }] [] [] =
      levelLoop
      ⟨fun _ => .ok none, fun _ => .error (), fun _ => .error (), fun _ => .error ()⟩
      1 [] [] []) :=
  ⟨claim7_failed_fetch_absorbed.1
      ⟨fun _ => .ok none, fun _ => .error (), fun _ => .error (), fun _ => .error ()⟩
      { id := "officer-x", type := "officer", label := "X", officer_id := some "x" }
      [] [] "x" rfl rfl (by decide) rfl,
   claim7_failed_fetch_absorbed.2.2.2
      ⟨fun _ => .ok none, fun _ => .error (), fun _ => .error (), fun _ => .error ()⟩
      { id := "officer-x", type := "officer", label := "X", officer_id := some "x" }
      [] []
      (claim7_failed_fetch_absorbed.1
        ⟨fun _ => .ok none, fun _ => .error (), fun _ => .error (), fun _ => .error ()⟩
        { id := "officer-x", type := "officer", label := "X", officer_id := some "x" }
        [] [] "x" rfl rfl (by decide) rfl)
      1 [] []⟩

/-- Counterexample to C8 as stated: when the top-level expansion throws, the
graph is indeed left at its pre-expansion state, but no error is surfaced to
the caller — the catch block only logs, `setError` is never called, and the
handler completes normally: the component's error state stays `none`. -/
theorem claim8_counterexample :
    handleExpandNetwork env8 (some off8) ⟨[off8], [], none⟩ 1 = ⟨[off8], [], none⟩ ∧
    (handleExpandNetwork env8 (some off8) ⟨[off8], [], none⟩ 1).errorMsg = none := by
  constructor <;> rfl

/-- C8 (amended): if the top-level expansion throws before completing, the
graph (node set and edge set) is left exactly at its pre-expansion state —
no partial merge — and the component state is entirely unchanged; the error
is caught and logged rather than surfaced. -/
theorem claim8_amended_rollback (env : FetchEnv) (sel : GNode) (st : CanvasState)
    (k : Nat) (v : String)
    (hty : sel.type = "officer") (hoid : sel.officer_id = some v) (hv : v ≠ "")
    (hfail : env.appointments v = .error ()) :
    handleExpandNetwork env (some sel) st (k + 1) = st := by
  have hexp : expandSingleNode env sel st.nodes st.edges = .error () := by
    have hb : (!(v == "")) = true := by
      simp [beq_eq_false_iff_ne.mpr hv]
    unfold expandSingleNode
    rw [hty, hoid]
    simp only [truthyS, hb, show (("officer" == "officer") : Bool) = true from rfl,
      Bool.and_true, Bool.true_and, if_true]
    have : jsOrS (some v) "" = v := by simp [jsOrS, hv]
    rw [this, hfail]
  unfold handleExpandNetwork
  simp only [levelLoop, promiseAll, hexp]

/-- Witness for the amended C8 at a concrete failing expansion. -/
theorem claim8_amended_rollback_witness :
    (env8.appointments "x" = .error ()) ∧
    handleExpandNetwork env8 (some off8) ⟨[off8], [], none⟩ 1 = ⟨[off8], [], none⟩ :=
  ⟨rfl, claim8_amended_rollback env8 off8 ⟨[off8], [], none⟩ 0 "x" rfl rfl (by decide) rfl⟩

/-- Counterexample to C2 as stated: during officer expansion the appointment
address `rFull` is relinked ("treated as the same place") to the address
node built from `rShort`, although `formatAddress rFull ≠ formatAddress
rShort` — the officer-expansion branch compares by the two-component
projection (line 1, locality), not by the full formatted string. -/
theorem claim2_counterexample :
    (expandSingleNode envC2 officerZ [officerZ, addrNodeC2] [] = .ok c2res) ∧
    (∃ e ∈ c2res.newEdges, e.target = "addrN" ∧ e.label = "Registered Office") ∧
    formatAddress rFull ≠ formatAddress rShort ∧
    addrNodeC2.label = formatAddress rShort := by
  refine ⟨rfl, ?_, by decide, by decide⟩
  decide

/-- C2 (amended): `formatAddress` is the dedup key where address nodes are
created (assembly and company expansion), but the officer-expansion branch
matches an appointment's address against existing address nodes by the
two-component projection: a registered-office relink edge is produced iff
some current address node's label equals `shortAddress` of the appointment
address, and it targets the first such node. -/
theorem claim2_amended_short_projection_relink (env : FetchEnv) (node : GNode)
    (cn : List GNode) (ce : List GEdge) (item : Appt) (a : Address) (v : String)
    (hty : node.type = "officer") (hoid : node.officer_id = some v) (hv : v ≠ "")
    (hfetch : env.appointments v = .ok (some [item]))
    (haddr : item.address = some a)
    (hfresh : cn.find? (fun n => n.id == item.company_number) = none)
    (hdetails : env.companyDetails item.company_number = .ok none)
    (hne : node.id ≠ item.company_number) :
    ∃ r, expandSingleNode env node cn ce = .ok r ∧
      ((∃ e ∈ r.newEdges, e.source = item.company_number) ↔
        (∃ m ∈ cn, m.type = "address" ∧ m.label = shortAddress a)) ∧
      (∀ e ∈ r.newEdges, e.source = item.company_number →
        ∀ m, cn.find? (fun n => n.type == "address" && n.label == shortAddress a) = some m →
          e.target = m.id) := by
  have hb : truthyS (some v) = true := by
    simp [truthyS, beq_eq_false_iff_ne.mpr hv]
  have hv' : jsOrS (some v) "" = v := by simp [jsOrS, hv]
  have hr : expandSingleNode env node cn ce =
      .ok (apptStep node cn ce {} (item, none, none)) := by
    unfold expandSingleNode
    rw [hty, hoid]
    simp only [hb, show (("officer" == "officer") : Bool) = true from rfl,
      Bool.true_and, if_true]
    rw [hv', hfetch]
    simp only [List.map, apptPrefetch, hfresh, hdetails, List.foldl]
  refine ⟨_, hr, ?_, ?_⟩
  · rcases hfind : cn.find? (fun n => n.type == "address" && n.label == shortAddress a)
        with _ | m0
    · simp only [apptStep, haddr, hfind, List.any_nil, Bool.false_eq_true, if_false,
        List.nil_append, List.mem_append, List.mem_singleton]
      constructor
      · rintro ⟨e, he | he, hsrc⟩
        · exfalso
          subst he
          exact hne (by simpa [officerEdge] using hsrc)
        · cases he
      · rintro ⟨m, hm, hmty, hmlb⟩
        exfalso
        have := List.find?_eq_none.mp hfind m hm
        simp only [Bool.and_eq_true, beq_iff_eq] at this
        exact this ⟨hmty, hmlb⟩
    · have hm0 := List.find?_some hfind
      have hm0mem := List.mem_of_find?_eq_some hfind
      simp only [Bool.and_eq_true, beq_iff_eq] at hm0
      simp only [apptStep, haddr, hfind, List.any_nil, Bool.false_eq_true, if_false,
        List.nil_append, List.mem_append, List.mem_singleton]
      constructor
      · intro _
        exact ⟨m0, hm0mem, hm0.1, hm0.2⟩
      · intro _
        exact ⟨regOfficeEdge item.company_number m0.id, Or.inr rfl, rfl⟩
  · intro e he hsrc m hm
    rcases hfind : cn.find? (fun n => n.type == "address" && n.label == shortAddress a)
        with _ | m0
    · rw [hfind] at hm; cases hm
    · rw [hfind] at hm
      cases hm
      simp only [apptStep, haddr, hfind, List.any_nil, Bool.false_eq_true, if_false,
        List.nil_append, List.mem_append, List.mem_singleton, List.mem_nil_iff,
        or_false] at he
      rcases he with he | he
      · exfalso
        subst he
        exact hne (by simpa [officerEdge] using hsrc)
      · subst he
        rfl

/-- Witness for the amended C2: the concrete relink of `rFull` to the node
labelled with `formatAddress rShort`. -/
theorem claim2_amended_short_projection_relink_witness :
    (("officer-z" : String) ≠ "C9") ∧
    ∃ r, expandSingleNode envC2 officerZ [officerZ, addrNodeC2] [] = .ok r ∧
      ((∃ e ∈ r.newEdges, e.source = "C9") ↔
        (∃ m ∈ [officerZ, addrNodeC2], m.type = "address" ∧
          m.label = shortAddress rFull)) ∧
      (∀ e ∈ r.newEdges, e.source = "C9" →
        ∀ m, List.find? (fun n => n.type == "address" && n.label == shortAddress rFull)
            [officerZ, addrNodeC2] = some m →
          e.target = m.id) :=
  ⟨by decide,
   claim2_amended_short_projection_relink envC2 officerZ [officerZ, addrNodeC2] []
     { company_number := "C9", company_name := "NewCo", officer_role := "director",
       address := some rFull }
     rFull "z" rfl rfl (by decide) rfl rfl (by decide) rfl (by decide)⟩

/-! ### Officer identity construction (claim C5) -/

theorem buildOfficerNodes_extend : ∀ (os : List Officer) (i : Nat) (acc : List GNode),
    ∃ extra, buildOfficerNodes i os acc = acc ++ extra := by
  intro os
  induction os with
  | nil => intro i acc; exact ⟨[], by simp [buildOfficerNodes]⟩
  | cons o rest ih =>
    intro i acc
    unfold buildOfficerNodes
    by_cases hg : acc.any (fun n => n.id == officerNodeIdA o i)
    · rw [if_pos hg]; exact ih (i + 1) acc
    · rw [if_neg hg]
      obtain ⟨extra, hextra⟩ := ih (i + 1) (acc ++ [mkOfficerNode (officerNodeIdA o i) o])
      exact ⟨[mkOfficerNode (officerNodeIdA o i) o] ++ extra, by
        rw [hextra, List.append_assoc]⟩

theorem buildOfficerNodes_mem : ∀ (os : List Officer) (j : Nat) (hj : j < os.length)
    (i : Nat) (acc : List GNode),
    officerNodeIdA os[j] (i + j) ∈ (buildOfficerNodes i os acc).map (·.id) := by
  intro os
  induction os with
  | nil => intro j hj; exact absurd hj (by simp)
  | cons o rest ih =>
    intro j hj i acc
    match j with
    | 0 =>
      simp only [List.getElem_cons_zero, Nat.add_zero]
      unfold buildOfficerNodes
      by_cases hg : acc.any (fun n => n.id == officerNodeIdA o i)
      · rw [if_pos hg]
        obtain ⟨n, hn, hnid⟩ := List.any_eq_true.mp hg
        obtain ⟨extra, hextra⟩ := buildOfficerNodes_extend rest (i + 1) acc
        rw [hextra]
        simp only [beq_iff_eq] at hnid
        exact List.mem_map.mpr ⟨n, List.mem_append_left _ hn, hnid⟩
      · rw [if_neg hg]
        obtain ⟨extra, hextra⟩ :=
          buildOfficerNodes_extend rest (i + 1) (acc ++ [mkOfficerNode (officerNodeIdA o i) o])
        rw [hextra]
        refine List.mem_map.mpr ⟨mkOfficerNode (officerNodeIdA o i) o, ?_, rfl⟩
        simp [List.mem_append]
    | j' + 1 =>
      have hj' : j' < rest.length := by simpa using hj
      have harith : i + (j' + 1) = (i + 1) + j' := by omega
      simp only [List.getElem_cons_succ]
      rw [harith]
      unfold buildOfficerNodes
      by_cases hg : acc.any (fun n => n.id == officerNodeIdA o i)
      · rw [if_pos hg]; exact ih j' hj' (i + 1) acc
      · rw [if_neg hg]; exact ih j' hj' (i + 1) _

/-- The node list produced by assembly, spelled out. -/
theorem assembleGraph_nodes_eq (company : CompanyRec) (officers : List Officer)
    (pscs : List Psc) :
    (assembleGraph company officers pscs).1 =
      mkCompanyNode company :: buildOfficerNodes 0 officers [] ++ buildPscNodes 0 pscs [] ++
        mkAddress1Node company ::
          (buildOfficerAddr (formatAddress company.registered_office_address) 0 officers [] []).1 := rfl

theorem companyOfficerStep_extend (node : GNode) (cn : List GNode) (ce : List GEdge)
    (st : ExpandResult) (i : Nat) (o : Officer) :
    ∃ extra, (companyOfficerStep node cn ce st i o).newNodes = st.newNodes ++ extra := by
  rcases hfind : cn.find? (fun n => n.id == officerNodeIdE node.id o i) with _ | ex
  · cases hdup : st.newNodes.any (fun n => n.id == officerNodeIdE node.id o i) with
    | true =>
      simp only [companyOfficerStep, hfind, hdup, if_true]
      exact ⟨[], by simp⟩
    | false =>
      rcases haddr : o.address with _ | addr
      · simp only [companyOfficerStep, hfind, hdup, haddr, Bool.false_eq_true, if_false]
        exact ⟨[mkOfficerNode (officerNodeIdE node.id o i) o], rfl⟩
      · by_cases hlb : formatAddress addr = ""
        · simp only [companyOfficerStep, hfind, hdup, haddr, Bool.false_eq_true, if_false,
            if_pos hlb]
          exact ⟨[mkOfficerNode (officerNodeIdE node.id o i) o], rfl⟩
        · rcases hfe : cn.find? (fun n => n.type == "address" && n.label == formatAddress addr)
              with _ | exaddr
          · rcases hfn : (st.newNodes ++ [mkOfficerNode (officerNodeIdE node.id o i) o]).find?
                (fun n => n.type == "address" && n.label == formatAddress addr) with _ | na
            · simp only [companyOfficerStep, hfind, hdup, haddr, Bool.false_eq_true, if_false,
                if_neg hlb, hfe, hfn]
              exact ⟨[mkOfficerNode (officerNodeIdE node.id o i) o,
                mkAddrNode ("address-" ++ slug (formatAddress addr) ++ "-" ++ decStr i)
                  (formatAddress addr)], by simp⟩
            · simp only [companyOfficerStep, hfind, hdup, haddr, Bool.false_eq_true, if_false,
                if_neg hlb, hfe, hfn]
              exact ⟨[mkOfficerNode (officerNodeIdE node.id o i) o], rfl⟩
          · simp only [companyOfficerStep, hfind, hdup, haddr, Bool.false_eq_true, if_false,
              if_neg hlb, hfe]
            exact ⟨[mkOfficerNode (officerNodeIdE node.id o i) o], rfl⟩
  · simp only [companyOfficerStep, hfind]
    exact ⟨[], by simp⟩

theorem companyOfficersLoop_extend (node : GNode) (cn : List GNode) (ce : List GEdge) :
    ∀ (os : List Officer) (i : Nat) (st : ExpandResult),
    ∃ extra, (companyOfficersLoop node cn ce i os st).newNodes = st.newNodes ++ extra := by
  intro os
  induction os with
  | nil => intro i st; exact ⟨[], by simp [companyOfficersLoop]⟩
  | cons o rest ih =>
    intro i st
    unfold companyOfficersLoop
    obtain ⟨e1, he1⟩ := companyOfficerStep_extend node cn ce st i o
    obtain ⟨e2, he2⟩ := ih (i + 1) (companyOfficerStep node cn ce st i o)
    exact ⟨e1 ++ e2, by rw [he2, he1, List.append_assoc]⟩

/-- In the company-expansion branch the computed officer identity is always
present after the step: reused from the current graph or created. -/
theorem companyOfficerStep_mem (node : GNode) (cn : List GNode) (ce : List GEdge)
    (st : ExpandResult) (i : Nat) (o : Officer) :
    officerNodeIdE node.id o i ∈
      (cn ++ (companyOfficerStep node cn ce st i o).newNodes).map (·.id) := by
  obtain ⟨extra, hextra⟩ := companyOfficerStep_extend node cn ce st i o
  rcases hfind : cn.find? (fun n => n.id == officerNodeIdE node.id o i) with _ | ex
  · cases hdup : st.newNodes.any (fun n => n.id == officerNodeIdE node.id o i) with
    | true =>
      obtain ⟨n, hn, hnid⟩ := List.any_eq_true.mp hdup
      simp only [beq_iff_eq] at hnid
      refine List.mem_map.mpr ⟨n, List.mem_append_right _ ?_, hnid⟩
      rw [hextra]
      exact List.mem_append_left _ hn
    | false =>
      have hmk : ∀ rest, officerNodeIdE node.id o i ∈
          (cn ++ (st.newNodes ++ mkOfficerNode (officerNodeIdE node.id o i) o :: rest)).map
            (·.id) := by
        intro rest
        refine List.mem_map.mpr ⟨mkOfficerNode (officerNodeIdE node.id o i) o, ?_, rfl⟩
        simp [List.mem_append]
      rcases haddr : o.address with _ | addr
      · simp only [companyOfficerStep, hfind, hdup, haddr, Bool.false_eq_true, if_false]
        exact hmk []
      · by_cases hlb : formatAddress addr = ""
        · simp only [companyOfficerStep, hfind, hdup, haddr, Bool.false_eq_true, if_false,
            if_pos hlb]
          exact hmk []
        · rcases hfe : cn.find? (fun n => n.type == "address" && n.label == formatAddress addr)
              with _ | exaddr
          · rcases hfn : (st.newNodes ++ [mkOfficerNode (officerNodeIdE node.id o i) o]).find?
                (fun n => n.type == "address" && n.label == formatAddress addr) with _ | na
            · simp only [companyOfficerStep, hfind, hdup, haddr, Bool.false_eq_true, if_false,
                if_neg hlb, hfe, hfn]
              simpa using hmk [mkAddrNode
                ("address-" ++ slug (formatAddress addr) ++ "-" ++ decStr i)
                (formatAddress addr)]
            · simp only [companyOfficerStep, hfind, hdup, haddr, Bool.false_eq_true, if_false,
                if_neg hlb, hfe, hfn]
              exact hmk []
          · simp only [companyOfficerStep, hfind, hdup, haddr, Bool.false_eq_true, if_false,
              if_neg hlb, hfe]
            exact hmk []
  · have hexid := List.find?_some hfind
    simp only [beq_iff_eq] at hexid
    exact List.mem_map.mpr ⟨ex, List.mem_append_left _ (List.mem_of_find?_eq_some hfind), hexid⟩

theorem companyOfficersLoop_mem (node : GNode) (cn : List GNode) (ce : List GEdge) :
    ∀ (os : List Officer) (j : Nat) (hj : j < os.length) (i : Nat) (st : ExpandResult),
    officerNodeIdE node.id os[j] (i + j) ∈
      (cn ++ (companyOfficersLoop node cn ce i os st).newNodes).map (·.id) := by
  intro os
  induction os with
  | nil => intro j hj; exact absurd hj (by simp)
  | cons o rest ih =>
    intro j hj i st
    match j with
    | 0 =>
      simp only [List.getElem_cons_zero, Nat.add_zero]
      unfold companyOfficersLoop
      obtain ⟨extra, hextra⟩ :=
        companyOfficersLoop_extend node cn ce rest (i + 1) (companyOfficerStep node cn ce st i o)
      have hbase := companyOfficerStep_mem node cn ce st i o
      rw [hextra]
      simp only [List.map_append, List.mem_append] at hbase ⊢
      rcases hbase with h | h
      · exact Or.inl h
      · exact Or.inr (Or.inl h)
    | j' + 1 =>
      have hj' : j' < rest.length := by simpa using hj
      have harith : i + (j' + 1) = (i + 1) + j' := by omega
      simp only [List.getElem_cons_succ]
      rw [harith]
      unfold companyOfficersLoop
      exact ih j' hj' (i + 1) _

/-- Counterexample to C5 as stated: at initial assembly, an officer without a
resolvable registry id at position 0 under company `12345678` gets identity
`officer-0`, not `officer-12345678-0` — the assembly fallback omits the
parent id. -/
theorem claim5_counterexample :
    ("officer-0" ∈ (assembleGraph co5 [off5] []).1.map (·.id)) ∧
    ("officer-12345678-0" ∉ (assembleGraph co5 [off5] []).1.map (·.id)) := by
  decide

/-- C5 (amended): an officer with a resolvable (truthy) registry id gets
identity `officer-<officerRegistryId>` in both assembly and company
expansion; without one, the fallback is `officer-<positionalIndex>` at
assembly but `officer-<parentId>-<positionalIndex>` at company expansion. -/
theorem claim5_amended_officer_identity :
    (∀ (company : CompanyRec) (officers : List Officer) (pscs : List Psc) (j : Nat)
       (hj : j < officers.length) (oid : String),
       officers[j].officer_id = some oid → oid ≠ "" →
       ("officer-" ++ oid) ∈ (assembleGraph company officers pscs).1.map (·.id)) ∧
    (∀ (company : CompanyRec) (officers : List Officer) (pscs : List Psc) (j : Nat)
       (hj : j < officers.length),
       (officers[j].officer_id = none ∨
        officers[j].officer_id = some "") →
       ("officer-" ++ decStr j) ∈ (assembleGraph company officers pscs).1.map (·.id)) ∧
    (∀ (env : FetchEnv) (node : GNode) (cn : List GNode) (ce : List GEdge)
       (officers : List Officer) (r : ExpandResult) (j : Nat) (hj : j < officers.length),
       node.type = "company" → env.companyOfficers node.id = .ok (some officers) →
       expandSingleNode env node cn ce = .ok r →
       (∀ oid, officers[j].officer_id = some oid → oid ≠ "" →
         ("officer-" ++ oid) ∈ (cn ++ r.newNodes).map (·.id)) ∧
       ((officers[j].officer_id = none ∨
         officers[j].officer_id = some "") →
         ("officer-" ++ node.id ++ "-" ++ decStr j) ∈ (cn ++ r.newNodes).map (·.id))) := by
  have hassembly : ∀ (company : CompanyRec) (officers : List Officer) (pscs : List Psc)
      (j : Nat) (hj : j < officers.length),
      officerNodeIdA officers[j] j ∈
        (assembleGraph company officers pscs).1.map (·.id) := by
    intro company officers pscs j hj
    have := buildOfficerNodes_mem officers j hj 0 []
    simp only [Nat.zero_add] at this
    rw [assembleGraph_nodes_eq]
    simp only [List.map_cons, List.map_append, List.mem_cons, List.mem_append]
    tauto
  refine ⟨?_, ?_, ?_⟩
  · intro company officers pscs j hj oid hoid hne
    have := hassembly company officers pscs j hj
    rwa [show officerNodeIdA officers[j] j = "officer-" ++ oid from by
      simp [officerNodeIdA, jsOrS, hoid, hne]] at this
  · intro company officers pscs j hj hfb
    have := hassembly company officers pscs j hj
    rcases hfb with hfb | hfb <;>
      rwa [show officerNodeIdA officers[j] j = "officer-" ++ decStr j from by
        simp [officerNodeIdA, jsOrS, hfb]] at this
  · intro env node cn ce officers r j hj hty hfetch hr
    have hrval : r = companyOfficersLoop node cn ce 0 officers {} := by
      unfold expandSingleNode at hr
      rw [hty, hfetch] at hr
      simp only [show (("company" == "officer") : Bool) = false from rfl, Bool.false_and,
        Bool.false_eq_true, if_false,
        show (("company" == "company") : Bool) = true from rfl, if_true] at hr
      cases hr
      rfl
    subst hrval
    have hmem := companyOfficersLoop_mem node cn ce officers j hj 0 {}
    simp only [Nat.zero_add] at hmem
    constructor
    · intro oid hoid hne
      rwa [show officerNodeIdE node.id officers[j] j = "officer-" ++ oid from by
        simp [officerNodeIdE, hoid, hne]] at hmem
    · intro hfb
      rcases hfb with hfb | hfb <;>
        rwa [show officerNodeIdE node.id officers[j] j =
            "officer-" ++ node.id ++ "-" ++ decStr j from by
          simp [officerNodeIdE, hfb]] at hmem

/-- Witness for the amended C5: a stable-id officer at assembly, a fallback
officer at assembly, and a fallback officer at company expansion. -/
theorem claim5_amended_officer_identity_witness :
    (("officer-abc" ∈ (assembleGraph co5
        [{ name := "Jane", officer_id := some "abc" }] []).1.map (·.id)) ∧
     ("officer-0" ∈ (assembleGraph co5 [off5] []).1.map (·.id))) ∧
    ("officer-EXPCO-0" ∈
      (([] : List GNode) ++
        (companyOfficersLoop (plainNode "EXPCO" "company" "E") [] [] 0 [off5] {}).newNodes).map
        (·.id)) := by
  refine ⟨⟨?_, ?_⟩, ?_⟩
  · exact claim5_amended_officer_identity.1 co5
      [{ name := "Jane", officer_id := some "abc" }] [] 0 (by decide) "abc" rfl (by decide)
  · exact claim5_amended_officer_identity.2.1 co5 [off5] [] 0 (by decide) (Or.inl rfl)
  · have := (claim5_amended_officer_identity.2.2
      ⟨fun _ => .error (), fun _ => .error (), fun _ => .ok (some [off5]), fun _ => .error ()⟩
      (plainNode "EXPCO" "company" "E") [] [] [off5]
      (companyOfficersLoop (plainNode "EXPCO" "company" "E") [] [] 0 [off5] {})
      0 (by decide) rfl rfl rfl).2 (Or.inl rfl)
    simpa using this

theorem companyOfficerStep_addr_inv (node : GNode) (cn : List GNode) (ce : List GEdge)
    (st : ExpandResult) (i : Nat) (o : Officer) (h : addrInv cn st) :
    addrInv cn (companyOfficerStep node cn ce st i o) := by
  obtain ⟨h1, h2, h3⟩ := h
  have hoffty : ((mkOfficerNode (officerNodeIdE node.id o i) o).type == "address") = false := rfl
  rcases hfind : cn.find? (fun n => n.id == officerNodeIdE node.id o i) with _ | ex
  · cases hdup : st.newNodes.any (fun n => n.id == officerNodeIdE node.id o i) with
    | true =>
      simp only [companyOfficerStep, hfind, hdup, if_true]
      exact ⟨h1, h2, h3⟩
    | false =>
      have hst1 : addrInv cn
          { newNodes := st.newNodes ++ [mkOfficerNode (officerNodeIdE node.id o i) o],
            newEdges := st.newEdges ++
              [officerEdge node.id (officerNodeIdE node.id o i) o.officer_role],
            allNeighbors := st.allNeighbors ++ [mkOfficerNode (officerNodeIdE node.id o i) o] } := by
        refine ⟨?_, ?_, ?_⟩
        · simpa [List.filter_append, List.filter_cons, hoffty] using h1
        · intro n hn
          rw [List.filter_append] at hn
          simp only [List.filter_cons, hoffty, Bool.false_eq_true, if_false,
            List.filter_nil, List.append_nil] at hn
          exact h2 n hn
        · intro e he hd
          simp only [List.mem_append, List.mem_singleton] at he
          rcases he with he | he
          · obtain ⟨n, hor, hty, hid⟩ := h3 e he hd
            exact ⟨n, by
              rcases hor with hor | hor
              · exact Or.inl hor
              · exact Or.inr (by simp only [List.mem_append]; exact Or.inl hor), hty, hid⟩
          · subst he
            simp [officerEdge] at hd
      rcases haddr : o.address with _ | addr
      · simp only [companyOfficerStep, hfind, hdup, haddr, Bool.false_eq_true, if_false]
        exact hst1
      · by_cases hlb : formatAddress addr = ""
        · simp only [companyOfficerStep, hfind, hdup, haddr, Bool.false_eq_true, if_false,
            if_pos hlb]
          exact hst1
        · rcases hfe : cn.find? (fun n => n.type == "address" && n.label == formatAddress addr)
              with _ | exaddr
          · rcases hfn : (st.newNodes ++ [mkOfficerNode (officerNodeIdE node.id o i) o]).find?
                (fun n => n.type == "address" && n.label == formatAddress addr) with _ | na
            · -- fresh address node created
              simp only [companyOfficerStep, hfind, hdup, haddr, Bool.false_eq_true, if_false,
                if_neg hlb, hfe, hfn]
              obtain ⟨g1, g2, g3⟩ := hst1
              have hnot_new : ∀ n ∈ (st.newNodes ++
                  [mkOfficerNode (officerNodeIdE node.id o i) o]).filter
                    (fun n => n.type == "address"),
                  n.label ≠ formatAddress addr := by
                intro n hn
                have hmem := (List.mem_filter.mp hn).1
                have hty := (List.mem_filter.mp hn).2
                have := List.find?_eq_none.mp hfn n hmem
                simp only [Bool.and_eq_true, beq_iff_eq] at this
                intro hl
                exact this ⟨by simpa [beq_iff_eq] using hty, hl⟩
              refine ⟨?_, ?_, ?_⟩
              · rw [List.filter_append]
                simp only [List.filter_cons,
                  show (((mkAddrNode ("address-" ++ slug (formatAddress addr) ++ "-" ++ decStr i)
                    (formatAddress addr)).type == "address")) = true from rfl, if_true,
                  List.filter_nil]
                rw [List.map_append, List.nodup_append]
                refine ⟨by simpa [List.filter_append, List.filter_cons, hoffty] using h1,
                  List.nodup_singleton _, ?_⟩
                intro x hx hx2
                have hxl : x = formatAddress addr := by
                  simpa [mkAddrNode] using hx2
                subst hxl
                obtain ⟨nn, hnn, hnnl⟩ := List.mem_map.mp hx
                exact hnot_new nn (by
                  simpa [List.filter_append, List.filter_cons, hoffty] using hnn) hnnl
              · intro n hn
                rw [List.filter_append] at hn
                simp only [List.filter_cons,
                  show (((mkAddrNode ("address-" ++ slug (formatAddress addr) ++ "-" ++ decStr i)
                    (formatAddress addr)).type == "address")) = true from rfl, if_true,
                  List.filter_nil, List.mem_append, List.mem_singleton] at hn
                rcases hn with hn | hn
                · exact g2 n hn
                · subst hn
                  intro m hm hmty
                  have := List.find?_eq_none.mp hfe m hm
                  simp only [Bool.and_eq_true, beq_iff_eq] at this
                  intro hl
                  exact this ⟨hmty, by simpa [mkAddrNode] using hl⟩
              · intro e he hd
                simp only [List.mem_append, List.mem_singleton] at he
                rcases he with (he | he) | he
                · obtain ⟨n, hor, hty, hid⟩ := h3 e he hd
                  refine ⟨n, ?_, hty, hid⟩
                  rcases hor with hor | hor
                  · exact Or.inl hor
                  · exact Or.inr (by simp [List.mem_append, hor])
                · subst he
                  simp [officerEdge] at hd
                · subst he
                  refine ⟨mkAddrNode ("address-" ++ slug (formatAddress addr) ++ "-" ++ decStr i)
                    (formatAddress addr), ?_, rfl, rfl⟩
                  exact Or.inr (by simp [List.mem_append])
            · -- reuse an address node created earlier in this call
              simp only [companyOfficerStep, hfind, hdup, haddr, Bool.false_eq_true, if_false,
                if_neg hlb, hfe, hfn]
              obtain ⟨g1, g2, g3⟩ := hst1
              refine ⟨g1, g2, ?_⟩
              intro e he hd
              simp only [List.mem_append, List.mem_singleton] at he
              rcases he with (he | he) | he
              · exact g3 e (by simp [List.mem_append, he]) hd
              · exact g3 e (by simp [List.mem_append, he]) hd
              · subst he
                have hna := List.find?_some hfn
                simp only [Bool.and_eq_true, beq_iff_eq] at hna
                exact ⟨na, Or.inr (List.mem_of_find?_eq_some hfn), hna.1, rfl⟩
          · -- reuse an address node already in the current graph
            simp only [companyOfficerStep, hfind, hdup, haddr, Bool.false_eq_true, if_false,
              if_neg hlb, hfe]
            obtain ⟨g1, g2, g3⟩ := hst1
            refine ⟨g1, g2, ?_⟩
            intro e he hd
            simp only [List.mem_append, List.mem_singleton] at he
            rcases he with (he | he) | he
            · exact g3 e (by simp [List.mem_append, he]) hd
            · exact g3 e (by simp [List.mem_append, he]) hd
            · subst he
              have hx := List.find?_some hfe
              simp only [Bool.and_eq_true, beq_iff_eq] at hx
              exact ⟨exaddr, Or.inl (List.mem_of_find?_eq_some hfe), hx.1, rfl⟩
  · simp only [companyOfficerStep, hfind]
    refine ⟨h1, h2, ?_⟩
    intro e he hd
    by_cases hcond : ((!ce.any fun e => e.id == edgeId node.id (officerNodeIdE node.id o i)) &&
        !st.newEdges.any fun e => e.id == edgeId node.id (officerNodeIdE node.id o i)) = true
    · rw [if_pos hcond] at he
      simp only [List.mem_append, List.mem_singleton] at he
      rcases he with he | he
      · exact h3 e he hd
      · subst he
        simp [officerEdge] at hd
    · rw [if_neg hcond] at he
      exact h3 e he hd

theorem companyOfficersLoop_addr_inv (node : GNode) (cn : List GNode) (ce : List GEdge) :
    ∀ (os : List Officer) (i : Nat) (st : ExpandResult), addrInv cn st →
    addrInv cn (companyOfficersLoop node cn ce i os st) := by
  intro os
  induction os with
  | nil => intro i st h; simpa [companyOfficersLoop] using h
  | cons o rest ih =>
    intro i st h
    unfold companyOfficersLoop
    exact ih (i + 1) _ (companyOfficerStep_addr_inv node cn ce st i o h)

/-- C6 (amended): within a single company-node expansion call, address nodes
are deduplicated per formatted address — first against the full current
graph, then against nodes newly created in the same call — so no two new
address nodes share a label, no new one duplicates an existing one, and
every correspondence edge targets such a unique address node.  (Across
sibling expansion calls of the same level the dedup is by positional node
id, and two same-label address nodes can be created — see the
counterexample.) -/
theorem claim6_amended_per_call_address_dedup (env : FetchEnv) (node : GNode)
    (cn : List GNode) (ce : List GEdge) (officers : List Officer) (r : ExpandResult)
    (hty : node.type = "company")
    (hfetch : env.companyOfficers node.id = .ok (some officers))
    (hr : expandSingleNode env node cn ce = .ok r) :
    addrInv cn r := by
  have hrval : r = companyOfficersLoop node cn ce 0 officers {} := by
    unfold expandSingleNode at hr
    rw [hty, hfetch] at hr
    simp only [show (("company" == "officer") : Bool) = false from rfl, Bool.false_and,
      Bool.false_eq_true, if_false,
      show (("company" == "company") : Bool) = true from rfl, if_true] at hr
    cases hr
    rfl
  subst hrval
  exact companyOfficersLoop_addr_inv node cn ce officers 0 {} (by
    refine ⟨by simp, by simp, by simp⟩)

/-- Counterexample to C6 as stated: two officers with the identical formatted
address `"9 High St, Leeds"`, discovered via two different company nodes
expanded in the same level, produce TWO address nodes (positional ids
`…-0` and `…-1`), and the two correspondence edges target different nodes. -/
theorem claim6_counterexample :
    (((handleExpandNetwork envC6 (some offExpC6) ⟨[offExpC6], [], none⟩ 2).nodes.filter
       (fun n => n.type == "address" && n.label == "9 High St, Leeds")).map (·.id) =
      ["address-9-high-st,-leeds-0", "address-9-high-st,-leeds-1"]) ∧
    ((handleExpandNetwork envC6 (some offExpC6) ⟨[offExpC6], [], none⟩ 2).edges.filter
       (fun e => e.dashed)).map (·.target) =
      ["address-9-high-st,-leeds-0", "address-9-high-st,-leeds-1"] := by
  constructor <;> decide

/-- Witness for the amended C6: one company expansion call discovering two
officers with the same formatted address. -/
theorem claim6_amended_per_call_address_dedup_witness :
    ((plainNode "B1" "company" "Bco").type = "company") ∧
    addrInv []
      (match expandSingleNode
          ⟨fun _ => .error (), fun _ => .error (),
           fun _ => .ok (some [offP6, offR6]), fun _ => .error ()⟩
          (plainNode "B1" "company" "Bco") [] [] with
        | .ok r => r
        | .error _ => {}) := by
  refine ⟨rfl, ?_⟩
  exact claim6_amended_per_call_address_dedup
    ⟨fun _ => .error (), fun _ => .error (),
     fun _ => .ok (some [offP6, offR6]), fun _ => .error ()⟩
    (plainNode "B1" "company" "Bco") [] [] [offP6, offR6] _ rfl rfl rfl

/-! ### Identity-string lemmas (claim C1)

Synthetic node identities all contain a dash right after their kind tag;
registry company numbers are assumed dash-free (Companies House numbers are
eight alphanumeric characters).  Decimal index printing contains no dash and
is injective, which makes the positional address identities collision-free. -/

theorem dashFree_ne {s t : String} (hs : noDash s) (ht : '-' ∈ t.data) : s ≠ t :=
  fun h => hs (by rw [h]; exact ht)

theorem dash_mem_append_left (p x : String) (hp : '-' ∈ p.data) : '-' ∈ (p ++ x).data := by
  rw [string_data_append]
  exact List.mem_append_left _ hp

theorem offId_ne_pscId (x y : String) : ("officer-" ++ x : String) ≠ "psc-" ++ y := by
  intro h
  have hd := congrArg String.data h
  rw [string_data_append, string_data_append,
    show ("officer-" : String).data = 'o' :: ['f', 'f', 'i', 'c', 'e', 'r', '-'] from rfl,
    show ("psc-" : String).data = 'p' :: ['s', 'c', '-'] from rfl] at hd
  simp only [List.cons_append, List.cons.injEq] at hd
  exact absurd hd.1 (by decide)

theorem offId_ne_addrPre (x y : String) : ("officer-" ++ x : String) ≠ "address-" ++ y := by
  intro h
  have hd := congrArg String.data h
  rw [string_data_append, string_data_append,
    show ("officer-" : String).data = 'o' :: ['f', 'f', 'i', 'c', 'e', 'r', '-'] from rfl,
    show ("address-" : String).data = 'a' :: ['d', 'd', 'r', 'e', 's', 's', '-'] from rfl] at hd
  simp only [List.cons_append, List.cons.injEq] at hd
  exact absurd hd.1 (by decide)

theorem pscId_ne_addrPre (x y : String) : ("psc-" ++ x : String) ≠ "address-" ++ y := by
  intro h
  have hd := congrArg String.data h
  rw [string_data_append, string_data_append,
    show ("psc-" : String).data = 'p' :: ['s', 'c', '-'] from rfl,
    show ("address-" : String).data = 'a' :: ['d', 'd', 'r', 'e', 's', 's', '-'] from rfl] at hd
  simp only [List.cons_append, List.cons.injEq] at hd
  exact absurd hd.1 (by decide)

/-- The data of a positional officer-address identity, in split form. -/
theorem addrId_data (i : Nat) (x : String) :
    ("address-" ++ decStr i ++ "-" ++ x : String).data =
      ("address-" : String).data ++ (decList i ++ '-' :: x.data) := by
  rw [string_data_append, string_data_append, string_data_append]
  show ("address-" : String).data ++ (decStr i).data ++ ['-'] ++ x.data = _
  rw [List.append_assoc, List.append_assoc]
  rfl

theorem addrId_inj (i j : Nat) (x y : String)
    (h : ("address-" ++ decStr i ++ "-" ++ x : String) = "address-" ++ decStr j ++ "-" ++ y) :
    i = j ∧ x = y := by
  have hd := congrArg String.data h
  rw [addrId_data, addrId_data] at hd
  have hsplit := List.append_cancel_left hd
  obtain ⟨h1, h2⟩ := dash_split (decList i) (decList j) x.data y.data
    (decList_no_dash i) (decList_no_dash j) hsplit
  exact ⟨decList_inj i j h1, string_ext h2⟩

theorem addr1_ne_addrId (j : Nat) (x : String) :
    ("address-1" : String) ≠ "address-" ++ decStr j ++ "-" ++ x := by
  intro h
  have hd := congrArg String.data h
  rw [addrId_data, show ("address-1" : String).data =
    ("address-" : String).data ++ ['1'] from rfl] at hd
  have hc := List.append_cancel_left hd
  have hlen : (1 : Nat) = (decList j).length + (x.data.length + 1) := by
    have := congrArg List.length hc
    simpa using this
  have hpos : 0 < (decList j).length := List.length_pos.mpr (decList_ne_nil j)
  omega

theorem dash_mem_offId (x : String) : '-' ∈ ("officer-" ++ x : String).data :=
  dash_mem_append_left "officer-" x (by decide)

theorem dash_mem_pscId (x : String) : '-' ∈ ("psc-" ++ x : String).data :=
  dash_mem_append_left "psc-" x (by decide)

theorem dash_mem_addrPre (x : String) : '-' ∈ ("address-" ++ x : String).data :=
  dash_mem_append_left "address-" x (by decide)

theorem dash_mem_addr1 : '-' ∈ ("address-1" : String).data := by decide

theorem string_append_assoc (a b c : String) : (a ++ b) ++ c = a ++ (b ++ c) := by
  apply string_ext
  simp only [string_data_append, List.append_assoc]

theorem contains_false_iff (l : List String) (a : String) :
    l.contains a = false ↔ a ∉ l := by
  constructor
  · intro h hm
    have ht : l.contains a = true := List.elem_iff.mpr hm
    rw [ht] at h
    cases h
  · intro h
    cases hx : l.contains a
    · rfl
    · exact absurd (List.elem_iff.mp hx) h

theorem nodup_append_singleton {l : List String} {a : String}
    (h : l.Nodup) (ha : a ∉ l) : (l ++ [a]).Nodup := by
  rw [List.nodup_append]
  exact ⟨h, List.nodup_singleton a,
    fun x hx hxa => ha (by rwa [List.mem_singleton.mp hxa] at hx)⟩

theorem not_any_id (acc : List GNode) (oid : String)
    (h : acc.any (fun n => n.id == oid) = false) : oid ∉ acc.map (·.id) := by
  intro hm
  obtain ⟨n, hn, hid⟩ := List.mem_map.mp hm
  have : acc.any (fun n => n.id == oid) = true :=
    List.any_eq_true.mpr ⟨n, hn, by simp [beq_iff_eq, hid]⟩
  rw [this] at h
  cases h

/-! ### Assembly produces duplicate-free identities (claim C1) -/

theorem buildOfficerNodes_ids : ∀ (os : List Officer) (i : Nat) (acc : List GNode),
    (∀ n ∈ acc, ∃ t, n.id = "officer-" ++ t) →
    ((acc.map (·.id)).Nodup) →
    (∀ n ∈ buildOfficerNodes i os acc, ∃ t, n.id = "officer-" ++ t) ∧
    (((buildOfficerNodes i os acc).map (·.id)).Nodup) := by
  intro os
  induction os with
  | nil =>
    intro i acc hchar hnd
    exact ⟨by simpa [buildOfficerNodes] using hchar, by simpa [buildOfficerNodes] using hnd⟩
  | cons o rest ih =>
    intro i acc hchar hnd
    unfold buildOfficerNodes
    cases hg : acc.any (fun n => n.id == officerNodeIdA o i) with
    | true =>
      rw [if_pos (by rw [hg])]
      exact ih (i + 1) acc hchar hnd
    | false =>
      rw [if_neg (by rw [hg]; exact Bool.false_ne_true)]
      apply ih (i + 1)
      · intro n hn
        rcases (List.mem_append.mp hn) with hn | hn
        · exact hchar n hn
        · rw [List.mem_singleton.mp hn]
          exact ⟨jsOrS o.officer_id (decStr i), rfl⟩
      · rw [List.map_append]
        exact nodup_append_singleton hnd (not_any_id acc _ hg)

theorem buildPscNodes_ids : ∀ (ps : List Psc) (i : Nat) (acc : List GNode),
    (∀ n ∈ acc, ∃ t, n.id = "psc-" ++ t) →
    ((acc.map (·.id)).Nodup) →
    (∀ n ∈ buildPscNodes i ps acc, ∃ t, n.id = "psc-" ++ t) ∧
    (((buildPscNodes i ps acc).map (·.id)).Nodup) := by
  intro ps
  induction ps with
  | nil =>
    intro i acc hchar hnd
    exact ⟨by simpa [buildPscNodes] using hchar, by simpa [buildPscNodes] using hnd⟩
  | cons p rest ih =>
    intro i acc hchar hnd
    unfold buildPscNodes
    cases hg : acc.any (fun n => n.id == "psc-" ++ decStr i) with
    | true =>
      rw [if_pos (by rw [hg])]
      exact ih (i + 1) acc hchar hnd
    | false =>
      rw [if_neg (by rw [hg]; exact Bool.false_ne_true)]
      apply ih (i + 1)
      · intro n hn
        rcases (List.mem_append.mp hn) with hn | hn
        · exact hchar n hn
        · rw [List.mem_singleton.mp hn]
          exact ⟨decStr i, rfl⟩
      · rw [List.map_append]
        exact nodup_append_singleton hnd (not_any_id acc _ hg)

theorem buildOfficerAddr_ids (L : String) : ∀ (os : List Officer) (i : Nat)
    (ns : List GNode) (es : List GEdge),
    (∀ n ∈ ns, ∃ j x, j < i ∧ n.id = "address-" ++ decStr j ++ "-" ++ x) →
    ((ns.map (·.id)).Nodup) →
    (∀ n ∈ (buildOfficerAddr L i os ns es).1,
      ∃ j x, n.id = "address-" ++ decStr j ++ "-" ++ x) ∧
    (((buildOfficerAddr L i os ns es).1.map (·.id)).Nodup) := by
  intro os
  induction os with
  | nil =>
    intro i ns es hchar hnd
    refine ⟨?_, by simpa [buildOfficerAddr] using hnd⟩
    intro n hn
    obtain ⟨j, x, _, hid⟩ := hchar n (by simpa [buildOfficerAddr] using hn)
    exact ⟨j, x, hid⟩
  | cons o rest ih =>
    intro i ns es hchar hnd
    have hweak : ∀ n ∈ ns, ∃ j x, j < i + 1 ∧ n.id = "address-" ++ decStr j ++ "-" ++ x := by
      intro n hn
      obtain ⟨j, x, hj, hid⟩ := hchar n hn
      exact ⟨j, x, by omega, hid⟩
    rcases haddr : o.address with _ | addr
    · simp only [buildOfficerAddr, haddr]
      exact ih (i + 1) ns es hweak hnd
    · by_cases hlb : formatAddress addr = ""
      · simp only [buildOfficerAddr, haddr, if_pos hlb]
        exact ih (i + 1) ns es hweak hnd
      · rcases hfound : ns.find? (fun n => n.label == formatAddress addr) with _ | found
        · by_cases hcl : formatAddress addr = L
          · simp only [buildOfficerAddr, haddr, if_neg hlb, hfound, if_pos hcl]
            exact ih (i + 1) ns _ hweak hnd
          · simp only [buildOfficerAddr, haddr, if_neg hlb, hfound, if_neg hcl]
            apply ih (i + 1)
            · intro n hn
              rcases (List.mem_append.mp hn) with hn | hn
              · exact hweak n hn
              · rw [List.mem_singleton.mp hn]
                exact ⟨i, jsOrS o.officer_id (decStr i), by omega, rfl⟩
            · rw [List.map_append]
              apply nodup_append_singleton hnd
              intro hm
              obtain ⟨n, hn, hid⟩ := List.mem_map.mp hm
              obtain ⟨j, x, hj, hjid⟩ := hchar n hn
              rw [hjid] at hid
              obtain ⟨hji, _⟩ := addrId_inj j i x (jsOrS o.officer_id (decStr i)) hid
              omega
        · simp only [buildOfficerAddr, haddr, if_neg hlb, hfound]
          exact ih (i + 1) ns _ hweak hnd

theorem assembleGraph_nodes_nodup (company : CompanyRec) (officers : List Officer)
    (pscs : List Psc) (hcn : noDash company.company_number) :
    (((assembleGraph company officers pscs).1).map (·.id)).Nodup := by
  obtain ⟨hOchar, hOnd⟩ := buildOfficerNodes_ids officers 0 [] (by simp) (by simp)
  obtain ⟨hPchar, hPnd⟩ := buildPscNodes_ids pscs 0 [] (by simp) (by simp)
  obtain ⟨hAchar, hAnd⟩ := buildOfficerAddr_ids
    (formatAddress company.registered_office_address) officers 0 [] [] (by simp) (by simp)
  have haddr1 : ("address-1" : String) = "address-" ++ "1" := rfl
  rw [assembleGraph_nodes_eq]
  simp only [List.map_cons, List.map_append, List.cons_append, List.append_assoc]
  rw [List.nodup_cons]
  constructor
  · -- the company number collides with no synthetic identity
    intro hmem
    simp only [List.mem_append, List.mem_cons] at hmem
    have hcnid : (mkCompanyNode company).id = company.company_number := rfl
    rw [hcnid] at hmem
    rcases hmem with hmem | hmem | hmem | hmem
    · obtain ⟨n, hn, hid⟩ := List.mem_map.mp hmem
      obtain ⟨t, ht⟩ := hOchar n hn
      exact dashFree_ne hcn (ht ▸ dash_mem_offId t) hid.symm
    · obtain ⟨n, hn, hid⟩ := List.mem_map.mp hmem
      obtain ⟨t, ht⟩ := hPchar n hn
      exact dashFree_ne hcn (ht ▸ dash_mem_pscId t) hid.symm
    · exact dashFree_ne hcn dash_mem_addr1 (hmem.trans rfl)
    · obtain ⟨n, hn, hid⟩ := List.mem_map.mp hmem
      obtain ⟨j, x, ht⟩ := hAchar n hn
      refine dashFree_ne hcn ?_ hid.symm
      rw [ht, string_append_assoc, string_append_assoc]
      exact dash_mem_addrPre _
  · -- the four synthetic groups are internally and mutually duplicate-free
    have haddr1blk : ((mkAddress1Node company).id ::
        (buildOfficerAddr (formatAddress company.registered_office_address)
          0 officers [] []).1.map (·.id)).Nodup := by
      rw [List.nodup_cons]
      constructor
      · intro hmem
        obtain ⟨n, hn, hid⟩ := List.mem_map.mp hmem
        obtain ⟨j, x, ht⟩ := hAchar n hn
        exact addr1_ne_addrId j x (hid.symm.trans ht)
      · exact hAnd
    rw [List.nodup_append]
    refine ⟨hOnd, ?_, ?_⟩
    · rw [List.nodup_append]
      refine ⟨hPnd, haddr1blk, ?_⟩
      intro x hxp hx2
      obtain ⟨m, hm, hid2⟩ := List.mem_map.mp hxp
      obtain ⟨u, hu⟩ := hPchar m hm
      simp only [List.mem_cons] at hx2
      have hx2form : ∃ y, x = "address-" ++ y := by
        rcases hx2 with hx2 | hx2
        · exact ⟨"1", hx2.trans rfl⟩
        · obtain ⟨n, hn, hid⟩ := List.mem_map.mp hx2
          obtain ⟨j, z, ht⟩ := hAchar n hn
          refine ⟨decStr j ++ ("-" ++ z), ?_⟩
          rw [← hid, ht, string_append_assoc, string_append_assoc]
      obtain ⟨y, hy⟩ := hx2form
      exact pscId_ne_addrPre u y (by rw [← hu, hid2, hy])
    · intro x hxo hx2
      obtain ⟨n, hn, hid⟩ := List.mem_map.mp hxo
      obtain ⟨t, ht⟩ := hOchar n hn
      have hxf : x = "officer-" ++ t := by rw [← hid, ht]
      simp only [List.mem_append, List.mem_cons] at hx2
      rcases hx2 with hx2 | hx2 | hx2
      · obtain ⟨m, hm, hid2⟩ := List.mem_map.mp hx2
        obtain ⟨u, hu⟩ := hPchar m hm
        exact offId_ne_pscId t u (by rw [← hxf, ← hid2, hu])
      · exact offId_ne_addrPre t "1" (hxf.symm.trans (hx2.trans rfl))
      · obtain ⟨m, hm, hid2⟩ := List.mem_map.mp hx2
        obtain ⟨j, z, ht2⟩ := hAchar m hm
        refine offId_ne_addrPre t (decStr j ++ ("-" ++ z)) ?_
        rw [← hxf, ← hid2, ht2, string_append_assoc, string_append_assoc]

/-! ### Edge and merge dedup (claim C1) -/

theorem deduplicateEdges_go_spec : ∀ (es : List GEdge) (seen : List String),
    (((deduplicateEdges.go seen es).map (·.id)).Nodup) ∧
    (∀ e ∈ deduplicateEdges.go seen es, e.id ∉ seen) := by
  intro es
  induction es with
  | nil => intro seen; exact ⟨by simp [deduplicateEdges.go], by simp [deduplicateEdges.go]⟩
  | cons e rest ih =>
    intro seen
    cases hc : seen.contains e.id with
    | true =>
      simp only [deduplicateEdges.go, hc, if_true]
      exact ih seen
    | false =>
      simp only [deduplicateEdges.go, hc, Bool.false_eq_true, if_false]
      obtain ⟨ihnd, ihnotin⟩ := ih (seen ++ [e.id])
      refine ⟨?_, ?_⟩
      · rw [List.map_cons, List.nodup_cons]
        refine ⟨?_, ihnd⟩
        intro hmem
        obtain ⟨q, hq, hid⟩ := List.mem_map.mp hmem
        have := ihnotin q hq
        rw [← hid] at this
        exact this (List.mem_append_right _ (List.mem_singleton.mpr rfl))
      · intro q hq
        simp only [List.mem_cons] at hq
        rcases hq with hq | hq
        · rw [hq]
          exact (contains_false_iff seen e.id).mp hc
        · intro hmem
          exact ihnotin q hq (List.mem_append_left _ hmem)

theorem deduplicateEdges_nodup (es : List GEdge) :
    ((deduplicateEdges es).map (·.id)).Nodup :=
  (deduplicateEdges_go_spec es []).1

theorem mergeStep_foldl_inv (cn : List GNode) : ∀ (ns : List GNode) (acc : List GNode),
    (((acc.map (·.id)).Nodup) ∧ ∀ x ∈ acc, ∀ m ∈ cn, m.id ≠ x.id) →
    ((((ns.foldl (fun acc2 node =>
        if cn.any (fun n => n.id == node.id) || acc2.any (fun n => n.id == node.id)
        then acc2 else acc2 ++ [node]) acc).map (·.id)).Nodup) ∧
     ∀ x ∈ ns.foldl (fun acc2 node =>
        if cn.any (fun n => n.id == node.id) || acc2.any (fun n => n.id == node.id)
        then acc2 else acc2 ++ [node]) acc, ∀ m ∈ cn, m.id ≠ x.id) := by
  intro ns
  induction ns with
  | nil => intro acc h; simpa using h
  | cons node rest ih =>
    intro acc h
    obtain ⟨hnd, hdisj⟩ := h
    simp only [List.foldl_cons]
    cases hcond : (cn.any (fun n => n.id == node.id) || acc.any (fun n => n.id == node.id)) with
    | true =>
      simp only [eq_self_iff_true, if_true]
      exact ih acc ⟨hnd, hdisj⟩
    | false =>
      simp only [Bool.false_eq_true, if_false]
      obtain ⟨hcn, hacc⟩ := Bool.or_eq_false_iff.mp hcond
      apply ih
      refine ⟨?_, ?_⟩
      · rw [List.map_append]
        exact nodup_append_singleton hnd (not_any_id acc _ hacc)
      · intro x hx m hm
        rcases List.mem_append.mp hx with hx | hx
        · exact hdisj x hx m hm
        · rw [List.mem_singleton.mp hx]
          intro heq
          have : cn.any (fun n => n.id == node.id) = true :=
            List.any_eq_true.mpr ⟨m, hm, by simp [beq_iff_eq, heq]⟩
          rw [this] at hcn
          cases hcn

theorem mergeNewNodes_spec (cn : List GNode) (results : List ExpandResult) :
    (((mergeNewNodes cn results).map (·.id)).Nodup) ∧
    (∀ x ∈ mergeNewNodes cn results, ∀ m ∈ cn, m.id ≠ x.id) := by
  suffices h : ∀ (rs : List ExpandResult) (acc : List GNode),
      (((acc.map (·.id)).Nodup) ∧ ∀ x ∈ acc, ∀ m ∈ cn, m.id ≠ x.id) →
      (((rs.foldl (fun acc r => r.newNodes.foldl (fun acc2 node =>
          if cn.any (fun n => n.id == node.id) || acc2.any (fun n => n.id == node.id)
          then acc2 else acc2 ++ [node]) acc) acc).map (·.id)).Nodup) ∧
      (∀ x ∈ rs.foldl (fun acc r => r.newNodes.foldl (fun acc2 node =>
          if cn.any (fun n => n.id == node.id) || acc2.any (fun n => n.id == node.id)
          then acc2 else acc2 ++ [node]) acc) acc, ∀ m ∈ cn, m.id ≠ x.id) by
    exact h results [] ⟨by simp, by simp⟩
  intro rs
  induction rs with
  | nil => intro acc h; simpa using h
  | cons r rest ih =>
    intro acc h
    simp only [List.foldl_cons]
    exact ih _ (mergeStep_foldl_inv cn r.newNodes acc h)

theorem merged_nodes_nodup (cn : List GNode) (results : List ExpandResult)
    (h : (cn.map (·.id)).Nodup) :
    ((cn ++ mergeNewNodes cn results).map (·.id)).Nodup := by
  obtain ⟨hnd, hdisj⟩ := mergeNewNodes_spec cn results
  rw [List.map_append, List.nodup_append]
  refine ⟨h, hnd, ?_⟩
  intro a ha hb
  obtain ⟨m, hm, hmid⟩ := List.mem_map.mp ha
  obtain ⟨x, hx, hxid⟩ := List.mem_map.mp hb
  exact hdisj x hx m hm (by rw [hmid, hxid])

theorem levelLoop_nodes_nodup (env : FetchEnv) : ∀ (k : Nat) (frontier cn : List GNode)
    (ce : List GEdge) (out : List GNode × List GEdge),
    ((cn.map (·.id)).Nodup) → levelLoop env k frontier cn ce = .ok out →
    ((out.1.map (·.id)).Nodup) := by
  intro k
  induction k with
  | zero =>
    intro frontier cn ce out h hr
    simp only [levelLoop] at hr
    cases hr
    exact h
  | succ k' ih =>
    intro frontier cn ce out h hr
    simp only [levelLoop] at hr
    cases hpa : promiseAll (fun n => expandSingleNode env n cn ce) frontier with
    | error e => rw [hpa] at hr; cases hr
    | ok results =>
      rw [hpa] at hr
      simp only at hr
      by_cases hempty : (dedupNodesById
          (results.foldl (fun a r => a ++ r.allNeighbors) [])).isEmpty = true
      · rw [if_pos hempty] at hr
        cases hr
        exact merged_nodes_nodup cn results h
      · rw [if_neg hempty] at hr
        exact ih _ _ _ out (merged_nodes_nodup cn results h) hr

/-- C1: no two nodes of a produced graph share an identity and no two edges
share an identity — for the graph assembled from a seed fetch (whose company
number, a registry company number, contains no dash), and for the graph
after any expansion call applied to a duplicate-free graph. -/
theorem claim1_dedup_invariant :
    (∀ (company : CompanyRec) (officers : List Officer) (pscs : List Psc),
      noDash company.company_number →
      (((assembleGraph company officers pscs).1.map (·.id)).Nodup ∧
       ((assembleGraph company officers pscs).2.map (·.id)).Nodup)) ∧
    (∀ (env : FetchEnv) (sel : Option GNode) (st : CanvasState) (lvl : Nat),
      ((st.nodes.map (·.id)).Nodup) → ((st.edges.map (·.id)).Nodup) →
      ((((handleExpandNetwork env sel st lvl).nodes.map (·.id)).Nodup) ∧
       (((handleExpandNetwork env sel st lvl).edges.map (·.id)).Nodup))) := by
  constructor
  · intro company officers pscs hcn
    refine ⟨assembleGraph_nodes_nodup company officers pscs hcn, ?_⟩
    exact deduplicateEdges_nodup _
  · intro env sel st lvl hn he
    match sel with
    | none => exact ⟨hn, he⟩
    | some s =>
      simp only [handleExpandNetwork]
      cases hll : levelLoop env lvl [s] st.nodes st.edges with
      | ok out =>
        match out with
        | (cn, ce) =>
          exact ⟨levelLoop_nodes_nodup env lvl [s] st.nodes st.edges (cn, ce) hn hll,
            deduplicateEdges_nodup ce⟩
      | error e => exact ⟨hn, he⟩

/-- Witness for C1: the concrete seed assembly of company `12345678` and the
concrete two-level expansion of `officer-x`. -/
theorem claim1_dedup_invariant_witness :
    (noDash ("12345678" : String)) ∧
    ((((assembleGraph co5 [off5] []).1.map (·.id)).Nodup ∧
      ((assembleGraph co5 [off5] []).2.map (·.id)).Nodup) ∧
     ((((handleExpandNetwork envC6 (some offExpC6) ⟨[offExpC6], [], none⟩ 2).nodes.map
        (·.id)).Nodup) ∧
      (((handleExpandNetwork envC6 (some offExpC6) ⟨[offExpC6], [], none⟩ 2).edges.map
        (·.id)).Nodup))) :=
  ⟨by decide,
   claim1_dedup_invariant.1 co5 [off5] [] (by decide),
   claim1_dedup_invariant.2 envC6 (some offExpC6) ⟨[offExpC6], [], none⟩ 2
     (by decide) (by decide)⟩

end CompanyMapper
